import Mathlib

/- Shallow embedding of src/frontends/rioterm/src/context/grid.rs.

   The Rust code computes with f32; this embedding uses exact rational
   arithmetic over ℚ. A Rust float-to-usize cast truncates toward zero and
   saturates below at zero, so both `lines.floor() as usize` and
   `visible_columns as usize` coincide with Int.toNat of the floor.
   Terminal session handles, mutex locks and the resize messenger are
   external side effects that never influence the grid state, so panes
   carry only the rich text id and the dimension record. Out-of-range Vec
   indexing is a Rust panic; the embedding leaves the state unchanged in
   that case, and theorems about indexing operations assume in-range
   indices. The recursions of `plot_objects` and `resize_context` follow
   index pointers, so the embedding adds an explicit fuel argument; on the
   engine's well-formed forests any path visits pairwise distinct nodes,
   hence fuel equal to the pane count suffices, and top-level wrappers use
   that fuel. -/

namespace Rio

def MIN_COLS : ℕ := 2

def MIN_LINES : ℕ := 1

def PADDING : ℚ := 4

structure Delta where
  x : ℚ
  top_y : ℚ
  bottom_y : ℚ
deriving DecidableEq, Repr

namespace Delta

def default : Delta := ⟨0, 0, 0⟩

end Delta

structure SugarDimensions where
  scale : ℚ
  width : ℚ
  height : ℚ
deriving DecidableEq, Repr

/-- Rust `as usize` applied to an f32 value (and likewise `.floor() as
usize`): truncate toward zero, saturating below at zero; on the rational
model both are the floor clamped to ℕ. -/
def ratToUsize (q : ℚ) : ℕ := (Int.floor q).toNat

/-- Embedding of `compute` (grid.rs lines 16-35). -/
def compute (width height : ℚ) (dimensions : SugarDimensions)
    (line_height : ℚ) (margin : Delta) : ℕ × ℕ :=
  let margin_x : ℚ := (Int.floor (margin.x * dimensions.scale) : ℤ)
  let margin_spaces := margin.top_y + margin.bottom_y
  let lines0 := (height / dimensions.scale) - margin_spaces
  let lines1 := lines0 / ((dimensions.height / dimensions.scale) * line_height)
  let visible_lines := max (ratToUsize lines1) MIN_LINES
  let vc0 := (width / dimensions.scale) - margin_x
  let vc1 := vc0 / (dimensions.width / dimensions.scale)
  let visible_columns := max (ratToUsize vc1) MIN_COLS
  (visible_columns, visible_lines)

/-- Embedding of `ContextDimension` (grid.rs lines 559-567). -/
structure ContextDimension where
  width : ℚ
  height : ℚ
  columns : ℕ
  lines : ℕ
  dimension : SugarDimensions
  margin : Delta
deriving DecidableEq, Repr

namespace ContextDimension

/-- `ContextDimension::build` (grid.rs lines 583-599). -/
def build (width height : ℚ) (dimension : SugarDimensions)
    (line_height : ℚ) (margin : Delta) : ContextDimension :=
  let cl := compute width height dimension line_height margin
  { width := width, height := height, columns := cl.1, lines := cl.2,
    dimension := dimension, margin := margin }

/-- `ContextDimension::update` (grid.rs lines 621-634); always runs the
conversion with line height 1.0. -/
def update (d : ContextDimension) : ContextDimension :=
  let cl := compute d.width d.height d.dimension 1 d.margin
  { d with columns := cl.1, lines := cl.2 }

/-- `ContextDimension::update_width` (grid.rs lines 601-604). -/
def update_width (d : ContextDimension) (width : ℚ) : ContextDimension :=
  update { d with width := width }

/-- `ContextDimension::update_height` (grid.rs lines 606-609). -/
def update_height (d : ContextDimension) (height : ℚ) : ContextDimension :=
  update { d with height := height }

/-- `ContextDimension::update_margin` (grid.rs lines 611-614). -/
def update_margin (d : ContextDimension) (margin : Delta) : ContextDimension :=
  update { d with margin := margin }

/-- `ContextDimension::update_dimensions` (grid.rs lines 616-619). -/
def update_dimensions (d : ContextDimension) (dimensions : SugarDimensions) :
    ContextDimension :=
  update { d with dimension := dimensions }

end ContextDimension

/-- The part of `Context<T>` that the grid reads and writes: its rich text
id and its dimension record. -/
structure Context where
  rich_text_id : ℕ
  dimension : ContextDimension
deriving DecidableEq, Repr

/-- `ContextGridItem` (grid.rs lines 53-67). -/
structure ContextGridItem where
  val : Context
  right : Option ℕ
  down : Option ℕ
deriving DecidableEq, Repr

/-- `ContextGridItem::new` (grid.rs lines 60-66). -/
def ContextGridItem.new (context : Context) : ContextGridItem :=
  { val := context, right := none, down := none }

/-- `Object` draw commands (from sugarloaf): rich text regions and
separator rectangles. -/
inductive Object where
  | RichText (id : ℕ) (position : ℚ × ℚ)
  | Rect (position : ℚ × ℚ) (color : ℚ × ℚ × ℚ × ℚ) (size : ℚ × ℚ)
deriving DecidableEq, Repr

/-- `ContextGrid` (grid.rs lines 44-51). -/
structure ContextGrid where
  width : ℚ
  height : ℚ
  current : ℕ
  margin : Delta
  border_color : ℚ × ℚ × ℚ × ℚ
  inner : List ContextGridItem
deriving DecidableEq, Repr

namespace ContextGrid

/-- `ContextGrid::new` (grid.rs lines 83-95). -/
def new (context : Context) (margin : Delta)
    (border_color : ℚ × ℚ × ℚ × ℚ) : ContextGrid :=
  { width := context.dimension.width, height := context.dimension.height,
    current := 0, margin := margin, border_color := border_color,
    inner := [ContextGridItem.new context] }

/-- `ContextGrid::select_next_split` (grid.rs lines 113-124). -/
def select_next_split (g : ContextGrid) : ContextGrid :=
  if g.inner.length = 1 then g
  else if g.inner.length - 1 ≤ g.current then { g with current := 0 }
  else { g with current := g.current + 1 }

/-- `ContextGrid::select_prev_split` (grid.rs lines 126-137). -/
def select_prev_split (g : ContextGrid) : ContextGrid :=
  if g.inner.length = 1 then g
  else if g.current = 0 then { g with current := g.inner.length - 1 }
  else { g with current := g.current - 1 }

/-- `ContextGrid::plot_objects` (grid.rs lines 212-267), with explicit
fuel for the pointer-indexed recursion. -/
def plot_objects (g : ContextGrid) : ℕ → ℕ → Delta → List Object
  | 0, _, _ => []
  | fuel + 1, index, margin =>
    match g.inner.get? index with
    | none => []
    | some item =>
      Object.RichText item.val.rich_text_id (margin.x, margin.top_y) ::
      ((match item.right with
        | none => []
        | some right_item =>
          let new_margin : Delta :=
            ⟨margin.x + PADDING +
              item.val.dimension.width / item.val.dimension.dimension.scale,
             margin.top_y, margin.bottom_y⟩
          Object.Rect (new_margin.x - PADDING, new_margin.top_y) g.border_color
              (2 / item.val.dimension.dimension.scale, item.val.dimension.height) ::
            plot_objects g fuel right_item new_margin) ++
       (match item.down with
        | none => []
        | some down_item =>
          let new_margin : Delta :=
            ⟨margin.x,
             margin.top_y + PADDING +
               item.val.dimension.height / item.val.dimension.dimension.scale,
             margin.bottom_y⟩
          Object.Rect (new_margin.x, new_margin.top_y - PADDING) g.border_color
              (item.val.dimension.width, 2 / item.val.dimension.dimension.scale) ::
            plot_objects g fuel down_item new_margin))

/-- `ContextGrid::objects` (grid.rs lines 156-176). -/
def objects (g : ContextGrid) : List Object :=
  if g.inner.length = 0 then []
  else if g.inner.length = 1 then
    match g.inner.head? with
    | some item => [Object.RichText item.val.rich_text_id (g.margin.x, g.margin.top_y)]
    | none => []
  else plot_objects g g.inner.length 0 g.margin

/-- The parent scan at the start of `remove_current` (grid.rs lines
353-368): the first item whose `right` (checked first) or `down` equals
`current`, with its index. -/
def findParentGo (current : ℕ) : List ContextGridItem → ℕ → Option (Bool × ℕ)
  | [], _ => none
  | context :: rest, index =>
    if context.right = some current then some (true, index)
    else if context.down = some current then some (false, index)
    else findParentGo current rest (index + 1)

def findParent (inner : List ContextGridItem) (current : ℕ) : Option (Bool × ℕ) :=
  findParentGo current inner 0

/-- `ContextGrid::remove_index` (grid.rs lines 459-474). -/
def remove_index (g : ContextGrid) (index : ℕ) : ContextGrid :=
  let inner := g.inner.map fun context =>
    let context :=
      match context.right with
      | some right_val =>
        if index < right_val then { context with right := some (right_val - 1) }
        else context
      | none => context
    match context.down with
    | some down_val =>
      if index < down_val then { context with down := some (down_val - 1) }
      else context
    | none => context
  { g with inner := inner.eraseIdx index }

/-- Rust `usize::wrapping_sub(1)`. -/
def wrappingSub1 (n : ℕ) : ℕ := if n = 0 then 2 ^ 64 - 1 else n - 1

/-- Steps 1-6 of `remove_current` (grid.rs lines 352-457): the parent
scan, the pointer splice, the dimension growth and the reassignment of
`current`, everything except the final `remove_index` call. -/
def splice_current (g : ContextGrid) : ContextGrid :=
  match g.inner.get? g.current with
  | none => g
  | some old_item =>
    let old := g.current
    let old_width := old_item.val.dimension.width
    let old_height := old_item.val.dimension.height
    match findParent g.inner g.current with
    | some (true, parent_index) =>
      match g.inner.get? parent_index with
      | none => g
      | some parent_item =>
        let parent_width := parent_item.val.dimension.width
        let p1 := { parent_item with
          val := { parent_item.val with dimension :=
            parent_item.val.dimension.update_width (parent_width + old_width + PADDING) },
          right := none }
        let inner1 := g.inner.set parent_index p1
        let inner2 :=
          match inner1.get? old with
          | some it =>
            match it.right with
            | some current_right => inner1.set parent_index { p1 with right := some current_right }
            | none => inner1
          | none => inner1
        { g with inner := inner2, current := parent_index }
    | some (false, parent_index) =>
      match g.inner.get? parent_index with
      | none => g
      | some parent_item =>
        let parent_height := parent_item.val.dimension.height
        let p1 := { parent_item with
          val := { parent_item.val with dimension :=
            parent_item.val.dimension.update_height (parent_height + old_height) },
          down := none }
        let inner1 := g.inner.set parent_index p1
        let inner2 :=
          match inner1.get? old with
          | some it =>
            match it.down with
            | some current_down => inner1.set parent_index { p1 with down := some current_down }
            | none => inner1
          | none => inner1
        { g with inner := inner2, current := parent_index }
    | none =>
      match old_item.right with
      | some right_val =>
        match g.inner.get? right_val with
        | none => g
        | some right_item =>
          let rd := right_item.val.dimension.update_width
            (right_item.val.dimension.width + old_width + PADDING)
          let r1 := { right_item with val := { right_item.val with dimension := rd } }
          { g with inner := g.inner.set right_val r1, current := wrappingSub1 right_val }
      | none =>
        match old_item.down with
        | some down_val =>
          match g.inner.get? down_val with
          | none => g
          | some down_item =>
            let dd := down_item.val.dimension.update_height
              (down_item.val.dimension.height + old_height)
            let d1 := { down_item with val := { down_item.val with dimension := dd } }
            { g with inner := g.inner.set down_val d1, current := wrappingSub1 down_val }
        | none => select_prev_split g

/-- `ContextGrid::remove_current` (grid.rs lines 352-457): the splice
followed by `remove_index` at the old value of `current`. -/
def remove_current (g : ContextGrid) : ContextGrid :=
  remove_index (splice_current g) g.current

/-- `ContextGrid::split_right` (grid.rs lines 476-515). -/
def split_right (g : ContextGrid) (context : Context) : ContextGrid :=
  match g.inner.get? g.current with
  | none => g
  | some cur_item =>
    let old_right := cur_item.right
    let old_grid_item_width := cur_item.val.dimension.width
    let new_grid_item_width := old_grid_item_width / 2
    let updated_cur := { cur_item with val := { cur_item.val with
      dimension := cur_item.val.dimension.update_width (new_grid_item_width - PADDING) } }
    let new_context0 := ContextGridItem.new context
    let new_context := { new_context0 with val := { new_context0.val with
      dimension := new_context0.val.dimension.update_width (new_grid_item_width - PADDING) } }
    let inner1 := (g.inner.set g.current updated_cur) ++ [new_context]
    let new_current := inner1.length - 1
    let inner2 := inner1.set new_current { new_context with right := old_right }
    let inner3 := inner2.set g.current { updated_cur with right := some new_current }
    { g with inner := inner3, current := new_current }

/-- `ContextGrid::split_down` (grid.rs lines 517-556). -/
def split_down (g : ContextGrid) (context : Context) : ContextGrid :=
  match g.inner.get? g.current with
  | none => g
  | some cur_item =>
    let old_down := cur_item.down
    let old_grid_item_height := cur_item.val.dimension.height
    let new_grid_item_height := old_grid_item_height / 2
    let updated_cur := { cur_item with val := { cur_item.val with
      dimension := cur_item.val.dimension.update_height (new_grid_item_height - (PADDING * 2)) } }
    let new_context0 := ContextGridItem.new context
    let new_context := { new_context0 with val := { new_context0.val with
      dimension := new_context0.val.dimension.update_height (new_grid_item_height - (PADDING * 2)) } }
    let inner1 := (g.inner.set g.current updated_cur) ++ [new_context]
    let new_current := inner1.length - 1
    let inner2 := inner1.set new_current { new_context with down := old_down }
    let inner3 := inner2.set g.current { updated_cur with down := some new_current }
    { g with inner := inner3, current := new_current }

/-- `ContextGrid::resize_context` (grid.rs lines 314-350), with explicit
fuel for the pointer-indexed recursion; returns the updated delta vector
and the node's own delta pair. -/
def resize_context (g : ContextGrid) :
    ℕ → List (ℚ × ℚ) → ℕ → ℚ → ℚ → List (ℚ × ℚ) × (ℚ × ℚ)
  | 0, vector, _, available_width, available_height =>
    (vector, (available_width, available_height))
  | fuel + 1, vector, index, available_width, available_height =>
    match g.inner.get? index with
    | none => (vector, (available_width, available_height))
    | some item =>
      let s1 :=
        match item.right with
        | some right_item =>
          let r := resize_context g fuel vector right_item (available_width / 2) available_height
          (r.1, r.2.1)
        | none => (vector, available_width)
      let s2 :=
        match item.down with
        | some down_item =>
          let r := resize_context g fuel s1.1 down_item available_width (available_height / 2)
          (r.1, r.2.2)
        | none => (s1.1, available_height)
      (s2.1.set index (s1.2, s2.2), (s1.2, s2.2))

/-- `ContextGrid::resize` (grid.rs lines 287-311). -/
def resize (g : ContextGrid) (new_width new_height : ℚ) : ContextGrid :=
  let width_difference := new_width - g.width
  let height_difference := new_height - g.height
  let vector0 : List (ℚ × ℚ) := List.replicate g.inner.length (0, 0)
  let r := resize_context g g.inner.length vector0 0 width_difference height_difference
  let inner := (g.inner.zip r.1).map fun p =>
    let d1 := p.1.val.dimension.update_width (p.1.val.dimension.width + p.2.1)
    let d2 := d1.update_height (d1.height + p.2.2)
    { p.1 with val := { p.1.val with dimension := d2 } }
  { g with width := new_width, height := new_height, inner := inner }

end ContextGrid

/-! Helper lemmas about the conversion. -/

theorem compute_fst_min (width height : ℚ) (dimensions : SugarDimensions)
    (line_height : ℚ) (margin : Delta) :
    2 ≤ (compute width height dimensions line_height margin).1 := by
  simp only [compute, MIN_COLS]
  exact le_max_right _ _

theorem compute_snd_min (width height : ℚ) (dimensions : SugarDimensions)
    (line_height : ℚ) (margin : Delta) :
    1 ≤ (compute width height dimensions line_height margin).2 := by
  simp only [compute, MIN_LINES]
  exact le_max_right _ _

theorem build_columns (width height : ℚ) (dimension : SugarDimensions)
    (line_height : ℚ) (margin : Delta) :
    (ContextDimension.build width height dimension line_height margin).columns =
      (compute width height dimension line_height margin).1 := rfl

theorem build_lines (width height : ℚ) (dimension : SugarDimensions)
    (line_height : ℚ) (margin : Delta) :
    (ContextDimension.build width height dimension line_height margin).lines =
      (compute width height dimension line_height margin).2 := rfl

theorem update_columns_min (d : ContextDimension) : 2 ≤ d.update.columns :=
  compute_fst_min d.width d.height d.dimension 1 d.margin

theorem update_lines_min (d : ContextDimension) : 1 ≤ d.update.lines :=
  compute_snd_min d.width d.height d.dimension 1 d.margin

/-! ## Claim C1 -/

/-- Claim C1, as stated, is false: on width 1200, height 800, cell metrics
scale 2 / cell width 18 / cell height 9, line height multiplier 1 and
margin x 10 / top 20 / bottom 20, `compute` returns (64, 80), not the
claimed (66, 88). (The spec's concrete scenario passes the margin
10/20/20 to the grid, while the conversion of the test runs on the
default all-zero margin.) -/
theorem C1_counterexample :
    compute 1200 800 ⟨2, 18, 9⟩ 1 ⟨10, 20, 20⟩ = (64, 80) ∧
      ((64, 80) : ℕ × ℕ) ≠ (66, 88) := by
  constructor
  · simp only [compute, ratToUsize, MIN_COLS, MIN_LINES]
    norm_num
    decide
  · decide

/-- Claim C1, amended: with width 1200, height 800, cell metrics scale 2 /
cell width 18 / cell height 9 and line height multiplier 1, the conversion
returns columns 66 and lines 88 when given the all-zero margin that the
test actually passes to `ContextDimension::build` (the margin 10/20/20 of
the scenario is the grid margin, which is not an input of this
conversion). -/
theorem C1_amended :
    compute 1200 800 ⟨2, 18, 9⟩ 1 Delta.default = (66, 88) ∧
      (ContextDimension.build 1200 800 ⟨2, 18, 9⟩ 1 Delta.default).columns = 66 ∧
      (ContextDimension.build 1200 800 ⟨2, 18, 9⟩ 1 Delta.default).lines = 88 := by
  have h : compute 1200 800 ⟨2, 18, 9⟩ 1 Delta.default = (66, 88) := by
    simp only [compute, ratToUsize, MIN_COLS, MIN_LINES, Delta.default]
    norm_num
    decide
  exact ⟨h, by rw [build_columns, h], by rw [build_lines, h]⟩

/-! ## Claim C2 -/

/-- Claim C2: for every input, the conversion clamps to at least 2 columns
and 1 line, and consequently every `ContextDimension` produced by `build`
or by any of the four setters satisfies columns at least 2 and lines at
least 1. -/
theorem C2_compute_clamps :
    ∀ (width height : ℚ) (dimensions : SugarDimensions) (line_height : ℚ)
      (margin : Delta) (d : ContextDimension) (w h : ℚ) (m : Delta)
      (sd : SugarDimensions),
      (2 ≤ (compute width height dimensions line_height margin).1 ∧
        1 ≤ (compute width height dimensions line_height margin).2) ∧
      (2 ≤ (ContextDimension.build width height dimensions line_height margin).columns ∧
        1 ≤ (ContextDimension.build width height dimensions line_height margin).lines) ∧
      (2 ≤ (d.update_width w).columns ∧ 1 ≤ (d.update_width w).lines) ∧
      (2 ≤ (d.update_height h).columns ∧ 1 ≤ (d.update_height h).lines) ∧
      (2 ≤ (d.update_margin m).columns ∧ 1 ≤ (d.update_margin m).lines) ∧
      (2 ≤ (d.update_dimensions sd).columns ∧ 1 ≤ (d.update_dimensions sd).lines) := by
  intro width height dimensions line_height margin d w h m sd
  exact ⟨⟨compute_fst_min width height dimensions line_height margin,
      compute_snd_min width height dimensions line_height margin⟩,
    ⟨(build_columns width height dimensions line_height margin) ▸
        compute_fst_min width height dimensions line_height margin,
      (build_lines width height dimensions line_height margin) ▸
        compute_snd_min width height dimensions line_height margin⟩,
    ⟨update_columns_min { d with width := w }, update_lines_min { d with width := w }⟩,
    ⟨update_columns_min { d with height := h }, update_lines_min { d with height := h }⟩,
    ⟨update_columns_min { d with margin := m }, update_lines_min { d with margin := m }⟩,
    ⟨update_columns_min { d with dimension := sd },
      update_lines_min { d with dimension := sd }⟩⟩

/-! ## Claim C4 -/

/-- The concrete scenario of claim C4: one pane of width 600 (the test's
600 by 600 dimension at scale 2, cell 14 by 8), zero margin. -/
def dim600 : ContextDimension := ContextDimension.build 600 600 ⟨2, 14, 8⟩ 1 Delta.default

def gridC4 : ContextGrid := ContextGrid.new ⟨0, dim600⟩ Delta.default (0, 0, 0, 0)

def gridC4split : ContextGrid := gridC4.split_right ⟨1, dim600⟩

def gridC4removed : ContextGrid := gridC4split.remove_current

/-- Claim C4: on the 600-wide zero-margin single-pane engine,
`split_right` gives both panes width 300 - PADDING and focuses the new
pane; the following `remove_current` restores the first pane to width
600 - PADDING and sets `current` to 0. -/
theorem C4_split_then_remove :
    (gridC4split.inner.get? 0).map (fun it => it.val.dimension.width) =
        some (300 - PADDING) ∧
      (gridC4split.inner.get? 1).map (fun it => it.val.dimension.width) =
        some (300 - PADDING) ∧
      gridC4split.current = 1 ∧
      (gridC4removed.inner.get? 0).map (fun it => it.val.dimension.width) =
        some (600 - PADDING) ∧
      gridC4removed.current = 0 := by
  refine ⟨?_, ?_, ?_, ?_, ?_⟩ <;>
    simp [gridC4removed, gridC4split, gridC4, dim600, ContextGrid.remove_current,
      ContextGrid.splice_current, ContextGrid.remove_index, ContextGrid.findParent,
      ContextGrid.findParentGo, ContextGrid.split_right, ContextGrid.new,
      ContextGridItem.new, ContextDimension.update_width, ContextDimension.update,
      ContextDimension.build, PADDING] <;> norm_num

/-! ## Claim C7 -/

theorem ratToUsize_mono {a b : ℚ} (h : a ≤ b) : ratToUsize a ≤ ratToUsize b :=
  Int.toNat_le_toNat (Int.floor_le_floor h)

/-- Claim C7, as stated, is false: with positive scale and cell sizes
(all 1) but line height multiplier -1 and margin top 10, raising the
height from 0 to 20 drops the returned lines from 10 to 1. -/
theorem C7_counterexample :
    (0 : ℚ) < (⟨1, 1, 1⟩ : SugarDimensions).scale ∧
      (0 : ℚ) < (⟨1, 1, 1⟩ : SugarDimensions).width ∧
      (0 : ℚ) < (⟨1, 1, 1⟩ : SugarDimensions).height ∧
      (0 : ℚ) ≤ 20 ∧
      (compute 0 0 ⟨1, 1, 1⟩ (-1) ⟨0, 10, 0⟩).2 = 10 ∧
      (compute 0 20 ⟨1, 1, 1⟩ (-1) ⟨0, 10, 0⟩).2 = 1 := by
  refine ⟨by decide, by decide, by decide, by decide, ?_, ?_⟩ <;>
    simp [compute, ratToUsize, MIN_COLS, MIN_LINES] <;> norm_num

/-- Claim C7, amended: with positive scale, cell width, cell height and a
positive line height multiplier held fixed (together with the margin),
the conversion is monotonic: a larger width never returns fewer columns
and a larger height never returns fewer lines. -/
theorem C7_amended (dimensions : SugarDimensions) (line_height : ℚ)
    (margin : Delta) (hs : 0 < dimensions.scale) (hw : 0 < dimensions.width)
    (hh : 0 < dimensions.height) (hlh : 0 < line_height)
    (w w' h h' : ℚ) (hww : w ≤ w') (hhh : h ≤ h') :
    (compute w h dimensions line_height margin).1 ≤
        (compute w' h' dimensions line_height margin).1 ∧
      (compute w h dimensions line_height margin).2 ≤
        (compute w' h' dimensions line_height margin).2 := by
  simp only [compute]
  constructor
  · refine max_le_max (ratToUsize_mono ?_) le_rfl
    have hcw : 0 < dimensions.width / dimensions.scale := div_pos hw hs
    refine div_le_div_of_nonneg_right ?_ hcw.le |>.trans le_rfl
    exact sub_le_sub_right ((div_le_div_right hs).2 hww) _
  · refine max_le_max (ratToUsize_mono ?_) le_rfl
    have hch : 0 < dimensions.height / dimensions.scale * line_height :=
      mul_pos (div_pos hh hs) hlh
    refine div_le_div_of_nonneg_right ?_ hch.le |>.trans le_rfl
    exact sub_le_sub_right ((div_le_div_right hs).2 hhh) _

/-- Witness for C7: at scale 2, cell 14 by 8, line height 1, zero margin,
growing the box from 600 by 300 to 1200 by 800 keeps both cell counts
monotone. -/
theorem C7_witness :
    (0 : ℚ) < (⟨2, 14, 8⟩ : SugarDimensions).scale ∧
      (0 : ℚ) < (⟨2, 14, 8⟩ : SugarDimensions).width ∧
      (0 : ℚ) < (⟨2, 14, 8⟩ : SugarDimensions).height ∧
      (0 : ℚ) < 1 ∧ (600 : ℚ) ≤ 1200 ∧ (300 : ℚ) ≤ 800 ∧
      ((compute 600 300 ⟨2, 14, 8⟩ 1 Delta.default).1 ≤
          (compute 1200 800 ⟨2, 14, 8⟩ 1 Delta.default).1 ∧
        (compute 600 300 ⟨2, 14, 8⟩ 1 Delta.default).2 ≤
          (compute 1200 800 ⟨2, 14, 8⟩ 1 Delta.default).2) :=
  ⟨by decide, by decide, by decide, by decide, by decide, by decide,
    C7_amended ⟨2, 14, 8⟩ 1 Delta.default (by decide) (by decide) (by decide)
      (by decide) 600 1200 300 800 (by decide) (by decide)⟩

/-! Projection lemmas for the dimension setters and the conversion. -/

theorem update_width_width (d : ContextDimension) (w : ℚ) :
    (d.update_width w).width = w := rfl

theorem update_width_height (d : ContextDimension) (w : ℚ) :
    (d.update_width w).height = d.height := rfl

theorem update_width_margin (d : ContextDimension) (w : ℚ) :
    (d.update_width w).margin = d.margin := rfl

theorem update_width_dimension (d : ContextDimension) (w : ℚ) :
    (d.update_width w).dimension = d.dimension := rfl

theorem update_width_lines (d : ContextDimension) (w : ℚ) :
    (d.update_width w).lines =
      (compute d.width d.height d.dimension 1 d.margin).2 := rfl

theorem update_height_height (d : ContextDimension) (h : ℚ) :
    (d.update_height h).height = h := rfl

theorem update_height_width (d : ContextDimension) (h : ℚ) :
    (d.update_height h).width = d.width := rfl

theorem update_height_margin (d : ContextDimension) (h : ℚ) :
    (d.update_height h).margin = d.margin := rfl

theorem update_height_dimension (d : ContextDimension) (h : ℚ) :
    (d.update_height h).dimension = d.dimension := rfl

theorem update_height_columns (d : ContextDimension) (h : ℚ) :
    (d.update_height h).columns =
      (compute d.width d.height d.dimension 1 d.margin).1 := rfl

/-! Structural equations for the split operations. -/

/-- `split_right` on a grid whose focused index is in range: the focused
item's width is halved minus PADDING and its right pointer is redirected
to the appended tail, which carries the incoming context at the same
halved width, inherits the focused item's old right pointer, and becomes
`current`. -/
theorem split_right_eq (g : ContextGrid) (c : Context) (cur_item : ContextGridItem)
    (h : g.inner.get? g.current = some cur_item) :
    g.split_right c =
      { g with
        inner :=
          g.inner.set g.current
            { cur_item with
              val := { cur_item.val with dimension := cur_item.val.dimension.update_width (cur_item.val.dimension.width / 2 - PADDING) },
              right := some g.inner.length } ++
          [{ val := { c with dimension := c.dimension.update_width (cur_item.val.dimension.width / 2 - PADDING) },
             right := cur_item.right, down := none }],
        current := g.inner.length } := by
  have hlt : g.current < g.inner.length := (List.get?_eq_some.1 h).choose
  simp only [ContextGrid.split_right, h, ContextGridItem.new, List.length_append,
    List.length_set, List.length_cons, List.length_nil, Nat.add_sub_cancel]
  simp [List.set_append, List.length_set, hlt, List.set_set, Nat.lt_irrefl]

/-- `split_down`, symmetrically: the height is halved minus 2 PADDING and
the down pointer is spliced. -/
theorem split_down_eq (g : ContextGrid) (c : Context) (cur_item : ContextGridItem)
    (h : g.inner.get? g.current = some cur_item) :
    g.split_down c =
      { g with
        inner :=
          g.inner.set g.current
            { cur_item with
              val := { cur_item.val with dimension := cur_item.val.dimension.update_height (cur_item.val.dimension.height / 2 - PADDING * 2) },
              down := some g.inner.length } ++
          [{ val := { c with dimension := c.dimension.update_height (cur_item.val.dimension.height / 2 - PADDING * 2) },
             right := none, down := cur_item.down }],
        current := g.inner.length } := by
  have hlt : g.current < g.inner.length := (List.get?_eq_some.1 h).choose
  simp only [ContextGrid.split_down, h, ContextGridItem.new, List.length_append,
    List.length_set, List.length_cons, List.length_nil, Nat.add_sub_cancel]
  simp [List.set_append, List.length_set, hlt, List.set_set, Nat.lt_irrefl]

/-! List helpers for the split equations. -/

theorem get_set_append_self {α : Type _} (l : List α) (i : ℕ) (x y : α)
    (h : i < l.length) : (l.set i x ++ [y]).get? i = some x := by
  rw [List.get?_append (by simpa using h)]
  exact List.get?_set_eq_of_lt _ (by simpa using h)

theorem get_set_append_tail {α : Type _} (l : List α) (i : ℕ) (x y : α) :
    (l.set i x ++ [y]).get? l.length = some y := by
  rw [List.get?_append_right (by simp)]
  simp

/-! ## Claim C5 -/

/-- Claim C5: whenever the focused index is in range, `split_right` sets
the focused pane's width to half its old width minus PADDING and gives
the appended tail pane that same width; the tail inherits the focused
pane's previous right pointer, the focused pane's right pointer becomes
the tail index, and `current` becomes the tail index. `split_down` does
the same on the height with half minus 2 PADDING and the down pointers. -/
theorem C5_split_semantics (g : ContextGrid) (c : Context) (cur_item : ContextGridItem)
    (h : g.inner.get? g.current = some cur_item) :
    ((g.split_right c).current = g.inner.length ∧
      ((g.split_right c).inner.get? g.current).map (fun it => it.val.dimension.width) =
        some (cur_item.val.dimension.width / 2 - PADDING) ∧
      ((g.split_right c).inner.get? g.current).map (fun it => it.right) =
        some (some g.inner.length) ∧
      ((g.split_right c).inner.get? g.inner.length).map (fun it => it.val.dimension.width) =
        some (cur_item.val.dimension.width / 2 - PADDING) ∧
      ((g.split_right c).inner.get? g.inner.length).map (fun it => it.right) =
        some cur_item.right) ∧
    ((g.split_down c).current = g.inner.length ∧
      ((g.split_down c).inner.get? g.current).map (fun it => it.val.dimension.height) =
        some (cur_item.val.dimension.height / 2 - PADDING * 2) ∧
      ((g.split_down c).inner.get? g.current).map (fun it => it.down) =
        some (some g.inner.length) ∧
      ((g.split_down c).inner.get? g.inner.length).map (fun it => it.val.dimension.height) =
        some (cur_item.val.dimension.height / 2 - PADDING * 2) ∧
      ((g.split_down c).inner.get? g.inner.length).map (fun it => it.down) =
        some cur_item.down) := by
  have hlt : g.current < g.inner.length := (List.get?_eq_some.1 h).choose
  rw [split_right_eq g c cur_item h, split_down_eq g c cur_item h]
  refine ⟨⟨rfl, ?_, ?_, ?_, ?_⟩, rfl, ?_, ?_, ?_, ?_⟩ <;>
    first
    | (rw [get_set_append_self _ _ _ _ hlt]
       simp [update_width_width, update_height_height])
    | (rw [get_set_append_tail]
       simp [update_width_width, update_height_height])

/-- Witness for C5 on the concrete single-pane 600-wide grid. -/
theorem C5_witness :
    gridC4.inner.get? gridC4.current = some (ContextGridItem.new ⟨0, dim600⟩) ∧
      (gridC4.split_right ⟨1, dim600⟩).current = gridC4.inner.length :=
  ⟨rfl, (C5_split_semantics gridC4 ⟨1, dim600⟩ (ContextGridItem.new ⟨0, dim600⟩) rfl).1.1⟩

/-! ## Claim C10 -/

/-- Claim C10: `split_right` leaves the focused pane's height, margin,
cell metrics, lines (the lines field is derived from inputs that the
width does not enter, so it is preserved for any pane whose stored lines
are consistent with its fields), rich text id and down pointer unchanged,
and leaves every other pre-existing pane entirely unchanged; only the
focused pane's width and columns, its right pointer, the appended tail
pane and `current` change. Symmetrically for `split_down` with width,
columns and the right pointer preserved. -/
theorem C10_split_frame (g : ContextGrid) (c : Context) (cur_item : ContextGridItem)
    (h : g.inner.get? g.current = some cur_item)
    (hlines : cur_item.val.dimension.lines =
      (compute cur_item.val.dimension.width cur_item.val.dimension.height
        cur_item.val.dimension.dimension 1 cur_item.val.dimension.margin).2)
    (hcols : cur_item.val.dimension.columns =
      (compute cur_item.val.dimension.width cur_item.val.dimension.height
        cur_item.val.dimension.dimension 1 cur_item.val.dimension.margin).1) :
    ((g.split_right c).inner.length = g.inner.length + 1 ∧
      ((g.split_right c).inner.get? g.current).map (fun it => it.val.dimension.height) =
        some cur_item.val.dimension.height ∧
      ((g.split_right c).inner.get? g.current).map (fun it => it.val.dimension.margin) =
        some cur_item.val.dimension.margin ∧
      ((g.split_right c).inner.get? g.current).map (fun it => it.val.dimension.dimension) =
        some cur_item.val.dimension.dimension ∧
      ((g.split_right c).inner.get? g.current).map (fun it => it.val.dimension.lines) =
        some cur_item.val.dimension.lines ∧
      ((g.split_right c).inner.get? g.current).map (fun it => it.val.rich_text_id) =
        some cur_item.val.rich_text_id ∧
      ((g.split_right c).inner.get? g.current).map (fun it => it.down) =
        some cur_item.down ∧
      (∀ j, j ≠ g.current → j < g.inner.length →
        (g.split_right c).inner.get? j = g.inner.get? j)) ∧
    ((g.split_down c).inner.length = g.inner.length + 1 ∧
      ((g.split_down c).inner.get? g.current).map (fun it => it.val.dimension.width) =
        some cur_item.val.dimension.width ∧
      ((g.split_down c).inner.get? g.current).map (fun it => it.val.dimension.margin) =
        some cur_item.val.dimension.margin ∧
      ((g.split_down c).inner.get? g.current).map (fun it => it.val.dimension.dimension) =
        some cur_item.val.dimension.dimension ∧
      ((g.split_down c).inner.get? g.current).map (fun it => it.val.dimension.columns) =
        some cur_item.val.dimension.columns ∧
      ((g.split_down c).inner.get? g.current).map (fun it => it.val.rich_text_id) =
        some cur_item.val.rich_text_id ∧
      ((g.split_down c).inner.get? g.current).map (fun it => it.right) =
        some cur_item.right ∧
      (∀ j, j ≠ g.current → j < g.inner.length →
        (g.split_down c).inner.get? j = g.inner.get? j)) := by
  have hlt : g.current < g.inner.length := (List.get?_eq_some.1 h).choose
  rw [split_right_eq g c cur_item h, split_down_eq g c cur_item h]
  refine ⟨⟨by simp, ?_, ?_, ?_, ?_, ?_, ?_, ?_⟩, by simp, ?_, ?_, ?_, ?_, ?_, ?_, ?_⟩
  case _ => rw [get_set_append_self _ _ _ _ hlt]; simp [update_width_height]
  case _ => rw [get_set_append_self _ _ _ _ hlt]; simp [update_width_margin]
  case _ => rw [get_set_append_self _ _ _ _ hlt]; simp [update_width_dimension]
  case _ =>
    rw [get_set_append_self _ _ _ _ hlt]
    simp [update_width_lines, hlines]
  case _ => rw [get_set_append_self _ _ _ _ hlt]; simp
  case _ => rw [get_set_append_self _ _ _ _ hlt]; simp
  case _ =>
    intro j hj hjl
    rw [List.get?_append (by simpa using hjl)]
    exact List.get?_set_ne _ _ (Ne.symm hj)
  case _ => rw [get_set_append_self _ _ _ _ hlt]; simp [update_height_width]
  case _ => rw [get_set_append_self _ _ _ _ hlt]; simp [update_height_margin]
  case _ => rw [get_set_append_self _ _ _ _ hlt]; simp [update_height_dimension]
  case _ =>
    rw [get_set_append_self _ _ _ _ hlt]
    simp [update_height_columns, hcols]
  case _ => rw [get_set_append_self _ _ _ _ hlt]; simp
  case _ => rw [get_set_append_self _ _ _ _ hlt]; simp
  case _ =>
    intro j hj hjl
    rw [List.get?_append (by simpa using hjl)]
    exact List.get?_set_ne _ _ (Ne.symm hj)

/-- Witness for C10 on the concrete single-pane 600-wide grid; the
consistency hypotheses hold definitionally because the pane was produced
by `build` with line height 1. -/
theorem C10_witness :
    gridC4.inner.get? gridC4.current = some (ContextGridItem.new ⟨0, dim600⟩) ∧
      (gridC4.split_right ⟨1, dim600⟩).inner.length = gridC4.inner.length + 1 :=
  ⟨rfl, (C10_split_frame gridC4 ⟨1, dim600⟩ (ContextGridItem.new ⟨0, dim600⟩)
    rfl rfl rfl).1.1⟩

/-! ## Claim C8 -/

/-- The delta distribution exactly as claim C8 words it, written from the
spec for the refinement proof: a leaf's delta is the pair passed to it; a
node with a right neighbor recurses into it with half the width delta
(height delta unchanged) and itself retains the width value returned by
that recursive call; a node with a down neighbor recurses into it with
half the height delta (width delta unchanged) and retains the returned
height value. -/
def spec_resize_delta (g : ContextGrid) : ℕ → ℕ → ℚ → ℚ → ℚ × ℚ
  | 0, _, aw, ah => (aw, ah)
  | fuel + 1, index, aw, ah =>
    match g.inner.get? index with
    | none => (aw, ah)
    | some item =>
      let w :=
        match item.right with
        | some right_item => (spec_resize_delta g fuel right_item (aw / 2) ah).1
        | none => aw
      let h :=
        match item.down with
        | some down_item => (spec_resize_delta g fuel down_item aw (ah / 2)).2
        | none => ah
      (w, h)

/-- The delta pair returned by `resize_context` is the one the claim
describes, for every fuel, start vector, node and delta pair. -/
theorem resize_context_snd (g : ContextGrid) :
    ∀ (fuel : ℕ) (v : List (ℚ × ℚ)) (index : ℕ) (aw ah : ℚ),
      (ContextGrid.resize_context g fuel v index aw ah).2 =
        spec_resize_delta g fuel index aw ah := by
  intro fuel
  induction fuel with
  | zero => intro v index aw ah; rfl
  | succ n ih =>
    intro v index aw ah
    cases hg : g.inner[index]? with
    | none => simp [ContextGrid.resize_context, spec_resize_delta, hg]
    | some item =>
      cases hr : item.right with
      | none =>
        cases hd : item.down with
        | none => simp [ContextGrid.resize_context, spec_resize_delta, hg, hr, hd]
        | some d => simp [ContextGrid.resize_context, spec_resize_delta, hg, hr, hd, ih]
      | some r =>
        cases hd : item.down with
        | none => simp [ContextGrid.resize_context, spec_resize_delta, hg, hr, hd, ih]
        | some d => simp [ContextGrid.resize_context, spec_resize_delta, hg, hr, hd, ih]

theorem resize_context_fst_length (g : ContextGrid) :
    ∀ (fuel : ℕ) (v : List (ℚ × ℚ)) (index : ℕ) (aw ah : ℚ),
      (ContextGrid.resize_context g fuel v index aw ah).1.length = v.length := by
  intro fuel
  induction fuel with
  | zero => intro v index aw ah; rfl
  | succ n ih =>
    intro v index aw ah
    cases hg : g.inner[index]? with
    | none => simp [ContextGrid.resize_context, hg]
    | some item =>
      cases hr : item.right with
      | none =>
        cases hd : item.down with
        | none => simp [ContextGrid.resize_context, hg, hr, hd]
        | some d => simp [ContextGrid.resize_context, hg, hr, hd, ih]
      | some r =>
        cases hd : item.down with
        | none => simp [ContextGrid.resize_context, hg, hr, hd, ih]
        | some d => simp [ContextGrid.resize_context, hg, hr, hd, ih]

/-- The slot of a traversed in-range node holds, after the traversal, the
delta pair that the traversal returns for that node (the final write at
the node is the last write to its slot). -/
theorem resize_context_writes (g : ContextGrid) (fuel : ℕ) (v : List (ℚ × ℚ))
    (index : ℕ) (aw ah : ℚ) (item : ContextGridItem)
    (hg : g.inner[index]? = some item) (hv : index < v.length) :
    (ContextGrid.resize_context g (fuel + 1) v index aw ah).1.get? index =
      some (ContextGrid.resize_context g (fuel + 1) v index aw ah).2 := by
  cases hr : item.right with
  | none =>
    cases hd : item.down with
    | none =>
      simp only [ContextGrid.resize_context, List.get?_eq_getElem?, hg, hr, hd]
      exact List.getElem?_set_eq_of_lt _ hv
    | some d =>
      simp only [ContextGrid.resize_context, List.get?_eq_getElem?, hg, hr, hd]
      refine List.getElem?_set_eq_of_lt _ ?_
      rw [resize_context_fst_length]
      exact hv
  | some r =>
    cases hd : item.down with
    | none =>
      simp only [ContextGrid.resize_context, List.get?_eq_getElem?, hg, hr, hd]
      refine List.getElem?_set_eq_of_lt _ ?_
      rw [resize_context_fst_length]
      exact hv
    | some d =>
      simp only [ContextGrid.resize_context, List.get?_eq_getElem?, hg, hr, hd]
      refine List.getElem?_set_eq_of_lt _ ?_
      rw [resize_context_fst_length, resize_context_fst_length]
      exact hv

/-- Claim C8: `resize` computes the deltas as the difference of new and
stored box, distributes them top-down from the root (index 0) and adds
each node's resulting per-axis delta to its stored width and height; the
distribution itself is the one the claim describes: the return pair of
`resize_context` equals `spec_resize_delta`, and the vector slot of every
traversed in-range node receives exactly that delta. -/
theorem C8_resize_distribution (g : ContextGrid) (nw nh : ℚ) :
    (g.resize nw nh =
      { g with
        width := nw, height := nh,
        inner :=
          (g.inner.zip
            (ContextGrid.resize_context g g.inner.length
              (List.replicate g.inner.length (0, 0)) 0 (nw - g.width) (nh - g.height)).1).map
            (fun p =>
              let d1 := p.1.val.dimension.update_width (p.1.val.dimension.width + p.2.1)
              let d2 := d1.update_height (d1.height + p.2.2)
              { p.1 with val := { p.1.val with dimension := d2 } }) }) ∧
    (∀ (fuel : ℕ) (v : List (ℚ × ℚ)) (index : ℕ) (aw ah : ℚ),
      (ContextGrid.resize_context g fuel v index aw ah).2 =
        spec_resize_delta g fuel index aw ah) ∧
    (∀ (fuel : ℕ) (v : List (ℚ × ℚ)) (index : ℕ) (aw ah : ℚ)
      (item : ContextGridItem), g.inner[index]? = some item → index < v.length →
      (ContextGrid.resize_context g (fuel + 1) v index aw ah).1.get? index =
        some (spec_resize_delta g (fuel + 1) index aw ah)) := by
  refine ⟨rfl, resize_context_snd g, ?_⟩
  intro fuel v index aw ah item hg hv
  rw [resize_context_writes g fuel v index aw ah item hg hv, resize_context_snd g]

/-- Witness for C8: the single pane of the concrete grid receives exactly
the passed delta pair. -/
theorem C8_witness :
    gridC4.inner[0]? = some (ContextGridItem.new ⟨0, dim600⟩) ∧
      0 < (List.replicate 1 ((0 : ℚ), (0 : ℚ))).length ∧
      (ContextGrid.resize_context gridC4 (0 + 1) (List.replicate 1 ((0 : ℚ), (0 : ℚ))) 0 10 6).1.get? 0 =
        some (spec_resize_delta gridC4 (0 + 1) 0 10 6) :=
  ⟨rfl, by decide,
    (C8_resize_distribution gridC4 0 0).2.2 0 (List.replicate 1 ((0 : ℚ), (0 : ℚ))) 0 10 6
      (ContextGridItem.new ⟨0, dim600⟩) rfl (by decide)⟩

def pointerTo (g : ContextGrid) (i : ℕ) (a : Bool) : Option ℕ :=
  (g.inner.get? i).bind (fun it => if a then it.right else it.down)

def ptrOk (len i : ℕ) : Option ℕ → Prop
  | none => True
  | some t => t < len ∧ t ≠ 0 ∧ t ≠ i

instance ptrOk.instDecidable (len i : ℕ) (o : Option ℕ) : Decidable (ptrOk len i o) :=
  match o with
  | none => isTrue trivial
  | some t => inferInstanceAs (Decidable (t < len ∧ t ≠ 0 ∧ t ≠ i))

def wellFormed (g : ContextGrid) : Prop :=
  g.current < g.inner.length ∧
  (∀ i < g.inner.length,
    ptrOk g.inner.length i (pointerTo g i true) ∧
      ptrOk g.inner.length i (pointerTo g i false)) ∧
  (∀ i₁ < g.inner.length, ∀ i₂ < g.inner.length,
    pointerTo g i₁ true = pointerTo g i₂ true →
      pointerTo g i₁ true = none ∨ i₁ = i₂) ∧
  (∀ i₁ < g.inner.length, ∀ i₂ < g.inner.length,
    pointerTo g i₁ false = pointerTo g i₂ false →
      pointerTo g i₁ false = none ∨ i₁ = i₂) ∧
  (∀ i₁ < g.inner.length, ∀ i₂ < g.inner.length,
    pointerTo g i₁ true = pointerTo g i₂ false → pointerTo g i₁ true = none)

theorem pointerTo_lt {g : ContextGrid} {j t : ℕ} {a : Bool}
    (h : pointerTo g j a = some t) : j < g.inner.length := by
  by_contra hc
  have hn : g.inner[j]? = none := List.getElem?_eq_none (Nat.le_of_not_lt hc)
  simp [pointerTo, List.get?_eq_getElem?, hn] at h

theorem wf_unique {g : ContextGrid} (hwf : wellFormed g) {j k t : ℕ} {a b : Bool}
    (hj : pointerTo g j a = some t) (hk : pointerTo g k b = some t) :
    j = k ∧ a = b := by
  have hjl := pointerTo_lt hj
  have hkl := pointerTo_lt hk
  obtain ⟨-, -, hTT, hFF, hTF⟩ := hwf
  cases a <;> cases b
  · rcases hFF j hjl k hkl (hj.trans hk.symm) with h | h
    · rw [h] at hj; exact absurd hj (by simp)
    · exact ⟨h, rfl⟩
  · have := hTF k hkl j hjl (hk.trans hj.symm)
    rw [this] at hk; exact absurd hk (by simp)
  · have := hTF j hjl k hkl (hj.trans hk.symm)
    rw [this] at hj; exact absurd hj (by simp)
  · rcases hTT j hjl k hkl (hj.trans hk.symm) with h | h
    · rw [h] at hj; exact absurd hj (by simp)
    · exact ⟨h, rfl⟩

theorem wf_ptrOk {g : ContextGrid} (hwf : wellFormed g) {j t : ℕ} {a : Bool}
    (h : pointerTo g j a = some t) : t < g.inner.length ∧ t ≠ 0 ∧ t ≠ j := by
  have hjl := pointerTo_lt h
  obtain ⟨-, hok, -, -, -⟩ := hwf
  have := (hok j hjl)
  cases a
  · have h2 := this.2; rw [h] at h2; exact h2
  · have h1 := this.1; rw [h] at h1; exact h1

theorem findParentGo_none (c : ℕ) :
    ∀ (l : List ContextGridItem) (k : ℕ), ContextGrid.findParentGo c l k = none →
      ∀ idx item, l.get? idx = some item →
        item.right ≠ some c ∧ item.down ≠ some c := by
  intro l
  induction l with
  | nil => intro k _ idx item h; simp at h
  | cons hd tl ih =>
    intro k hgo idx item h
    by_cases hr : hd.right = some c
    · simp [ContextGrid.findParentGo, hr] at hgo
    · by_cases hdn : hd.down = some c
      · simp [ContextGrid.findParentGo, hr, hdn] at hgo
      · simp only [ContextGrid.findParentGo, hr, hdn, if_false] at hgo
        cases idx with
        | zero => simp at h; rw [← h]; exact ⟨hr, hdn⟩
        | succ m =>
          simp only [List.get?_cons_succ] at h
          exact ih (k + 1) hgo m item h

theorem findParentGo_some (c : ℕ) :
    ∀ (l : List ContextGridItem) (k : ℕ) (a : Bool) (p : ℕ),
      ContextGrid.findParentGo c l k = some (a, p) →
      k ≤ p ∧ ∃ item, l.get? (p - k) = some item ∧
        (if a then item.right else item.down) = some c := by
  intro l
  induction l with
  | nil => intro k a p h; simp [ContextGrid.findParentGo] at h
  | cons hd tl ih =>
    intro k a p hgo
    by_cases hr : hd.right = some c
    · simp only [ContextGrid.findParentGo, hr, if_pos rfl] at hgo
      obtain ⟨ha, hp⟩ : a = true ∧ p = k := by
        constructor <;> [skip; skip] <;> cases hgo <;> rfl
      subst ha; subst hp
      exact ⟨le_rfl, hd, by simp, by simpa using hr⟩
    · by_cases hdn : hd.down = some c
      · simp only [ContextGrid.findParentGo, hr, hdn, if_false, if_pos rfl] at hgo
        obtain ⟨ha, hp⟩ : a = false ∧ p = k := by
          constructor <;> cases hgo <;> rfl
        subst ha; subst hp
        exact ⟨le_rfl, hd, by simp, by simpa using hdn⟩
      · simp only [ContextGrid.findParentGo, hr, hdn, if_false] at hgo
        obtain ⟨hkp, item, hitem, hax⟩ := ih (k + 1) a p hgo
        refine ⟨Nat.le_of_succ_le hkp, item, ?_, hax⟩
        have : p - k = (p - (k + 1)) + 1 := by omega
        rw [this, List.get?_cons_succ] at *
        exact hitem

theorem findParent_none {g : ContextGrid} {c : ℕ}
    (h : ContextGrid.findParent g.inner c = none) :
    ∀ j a, pointerTo g j a ≠ some c := by
  intro j a hja
  unfold pointerTo at hja
  cases hg : g.inner.get? j with
  | none => rw [hg] at hja; simp at hja
  | some item =>
    rw [hg] at hja
    have := findParentGo_none c g.inner 0 h j item hg
    cases a
    · exact this.2 (by simpa using hja)
    · exact this.1 (by simpa using hja)

theorem findParent_some {g : ContextGrid} {c : ℕ} {a : Bool} {p : ℕ}
    (h : ContextGrid.findParent g.inner c = some (a, p)) :
    pointerTo g p a = some c := by
  obtain ⟨-, item, hitem, hax⟩ := findParentGo_some c g.inner 0 a p h
  rw [Nat.sub_zero] at hitem
  unfold pointerTo
  rw [hitem]
  simpa using hax

theorem findParent_of_pointer {g : ContextGrid} (hwf : wellFormed g) {a : Bool}
    {p : ℕ} (h : pointerTo g p a = some g.current) :
    ContextGrid.findParent g.inner g.current = some (a, p) := by
  cases hfp : ContextGrid.findParent g.inner g.current with
  | none => exact absurd h (findParent_none hfp p a)
  | some pa =>
    obtain ⟨b, q⟩ := pa
    have hq := findParent_some hfp
    obtain ⟨h1, h2⟩ := wf_unique hwf hq h
    rw [h1, h2]

/-- The right-axis parent branch of the splice: the parent grows by the
removed width plus PADDING, and its right pointer becomes the removed
node's right pointer. -/
theorem splice_eq_right (g : ContextGrid) (old_item parent_item : ContextGridItem)
    (p : ℕ) (hold : g.inner.get? g.current = some old_item)
    (hp : g.inner.get? p = some parent_item)
    (hfp : ContextGrid.findParent g.inner g.current = some (true, p))
    (hne : p ≠ g.current) :
    g.splice_current =
      { g with
        inner := g.inner.set p { parent_item with
          val := { parent_item.val with dimension := parent_item.val.dimension.update_width (parent_item.val.dimension.width + old_item.val.dimension.width + PADDING) },
          right := old_item.right },
        current := p } := by
  simp only [ContextGrid.splice_current, hold, hfp, hp]
  rw [List.get?_set_ne _ _ hne, hold]
  dsimp only
  cases hr : old_item.right with
  | none => rfl
  | some cr =>
    dsimp only
    rw [List.set_set]

theorem splice_eq_down (g : ContextGrid) (old_item parent_item : ContextGridItem)
    (p : ℕ) (hold : g.inner.get? g.current = some old_item)
    (hp : g.inner.get? p = some parent_item)
    (hfp : ContextGrid.findParent g.inner g.current = some (false, p))
    (hne : p ≠ g.current) :
    g.splice_current =
      { g with
        inner := g.inner.set p { parent_item with
          val := { parent_item.val with dimension := parent_item.val.dimension.update_height (parent_item.val.dimension.height + old_item.val.dimension.height) },
          down := old_item.down },
        current := p } := by
  simp only [ContextGrid.splice_current, hold, hfp, hp]
  rw [List.get?_set_ne _ _ hne, hold]
  dsimp only
  cases hd : old_item.down with
  | none => rfl
  | some cd =>
    dsimp only
    rw [List.set_set]

theorem splice_eq_noparent_right (g : ContextGrid) (old_item right_item : ContextGridItem)
    (rv : ℕ) (hold : g.inner.get? g.current = some old_item)
    (hfp : ContextGrid.findParent g.inner g.current = none)
    (hr : old_item.right = some rv) (hrv : g.inner.get? rv = some right_item) :
    g.splice_current =
      { g with
        inner := g.inner.set rv { right_item with
          val := { right_item.val with dimension := right_item.val.dimension.update_width (right_item.val.dimension.width + old_item.val.dimension.width + PADDING) } },
        current := ContextGrid.wrappingSub1 rv } := by
  simp only [ContextGrid.splice_current, hold, hfp, hr, hrv]

theorem splice_eq_noparent_down (g : ContextGrid) (old_item down_item : ContextGridItem)
    (dv : ℕ) (hold : g.inner.get? g.current = some old_item)
    (hfp : ContextGrid.findParent g.inner g.current = none)
    (hr : old_item.right = none) (hd : old_item.down = some dv)
    (hdv : g.inner.get? dv = some down_item) :
    g.splice_current =
      { g with
        inner := g.inner.set dv { down_item with
          val := { down_item.val with dimension := down_item.val.dimension.update_height (down_item.val.dimension.height + old_item.val.dimension.height) } },
        current := ContextGrid.wrappingSub1 dv } := by
  simp only [ContextGrid.splice_current, hold, hfp, hr, hd, hdv]

theorem splice_eq_leaf (g : ContextGrid) (old_item : ContextGridItem)
    (hold : g.inner.get? g.current = some old_item)
    (hfp : ContextGrid.findParent g.inner g.current = none)
    (hr : old_item.right = none) (hd : old_item.down = none) :
    g.splice_current = g.select_prev_split := by
  simp only [ContextGrid.splice_current, hold, hfp, hr, hd]

def mapItem (idx : ℕ) (it : ContextGridItem) : ContextGridItem :=
  { it with right := it.right.map (fun t => if idx < t then t - 1 else t),
            down := it.down.map (fun t => if idx < t then t - 1 else t) }

theorem remove_index_inner (g : ContextGrid) (idx : ℕ) :
    (g.remove_index idx).inner = (g.inner.map (mapItem idx)).eraseIdx idx := by
  unfold ContextGrid.remove_index
  dsimp only
  congr 1
  apply List.map_congr_left
  intro it _
  obtain ⟨v, r, d⟩ := it
  cases r with
  | none =>
    cases d with
    | none => simp [mapItem]
    | some dv => by_cases hlt : idx < dv <;> simp [mapItem, hlt]
  | some rv =>
    cases d with
    | none => by_cases hlt : idx < rv <;> simp [mapItem, hlt]
    | some dv =>
      by_cases hlt : idx < rv <;> by_cases hlt2 : idx < dv <;>
        simp [mapItem, hlt, hlt2]

theorem get_eraseIdx_lt {α : Type _} (l : List α) (idx j : ℕ) (hj : j < idx) :
    (l.eraseIdx idx).get? j = l.get? j := by
  rw [List.eraseIdx_eq_take_drop_succ]
  by_cases hjl : j < l.length
  · rw [List.get?_append (by simp [List.length_take]; omega)]
    rw [List.get?_take hj]
  · have h1 : l.get? j = none := List.get?_eq_none.2 (by omega)
    have h2 : (l.take idx ++ l.drop (idx + 1)).get? j = none := by
      apply List.get?_eq_none.2
      simp [List.length_take, List.length_drop]
      omega
    rw [h1, h2]

theorem get_eraseIdx_ge {α : Type _} (l : List α) (idx j : ℕ) (hij : idx < j)
    (hjl : j < l.length) :
    (l.eraseIdx idx).get? (j - 1) = l.get? j := by
  rw [List.eraseIdx_eq_take_drop_succ]
  rw [List.get?_append_right (by simp [List.length_take]; omega)]
  rw [List.get?_drop]
  congr 1
  simp [List.length_take]
  omega

theorem remove_index_get (g : ContextGrid) (idx j : ℕ) (hj : j ≠ idx)
    (hlt : j < g.inner.length) :
    (g.remove_index idx).inner.get? (if idx < j then j - 1 else j) =
      (g.inner.get? j).map (mapItem idx) := by
  rw [remove_index_inner]
  by_cases h : idx < j
  · rw [if_pos h, get_eraseIdx_ge _ _ _ h (by simpa using hlt), List.get?_map]
  · rw [if_neg h, get_eraseIdx_lt _ _ _ (by omega), List.get?_map]

theorem remove_index_length (g : ContextGrid) (idx : ℕ) (h : idx < g.inner.length) :
    (g.remove_index idx).inner.length = g.inner.length - 1 := by
  rw [remove_index_inner]
  simp [List.length_eraseIdx, h]

theorem remove_index_pointerTo (g : ContextGrid) (idx j : ℕ) (a : Bool)
    (hj : j ≠ idx) (hlt : j < g.inner.length) :
    pointerTo (g.remove_index idx) (if idx < j then j - 1 else j) a =
      (pointerTo g j a).map (fun t => if idx < t then t - 1 else t) := by
  unfold pointerTo
  rw [remove_index_get g idx j hj hlt]
  cases hg : g.inner.get? j with
  | none => simp
  | some it => cases a <;> simp [mapItem]

theorem pointerTo_set (g g2 : ContextGrid) (k : ℕ) (new : ContextGridItem)
    (hg2 : g2.inner = g.inner.set k new) (hk : k < g.inner.length)
    (j : ℕ) (a : Bool) :
    pointerTo g2 j a =
      if j = k then (if a then new.right else new.down) else pointerTo g j a := by
  unfold pointerTo
  rw [hg2]
  by_cases hjk : j = k
  · subst hjk
    rw [if_pos rfl, List.get?_set_eq_of_lt _ hk]
    cases a <;> simp
  · rw [if_neg hjk, List.get?_set_ne _ _ (fun h => hjk h.symm)]

theorem pointerTo_select_prev (g : ContextGrid) (j : ℕ) (a : Bool) :
    pointerTo g.select_prev_split j a = pointerTo g j a := by
  unfold ContextGrid.select_prev_split pointerTo
  split
  · rfl
  · split <;> rfl

theorem getq {α : Type _} {l : List α} {n : ℕ} {o : Option α}
    (h : l.get? n = o) : l[n]? = o := by
  rw [← List.get?_eq_getElem?]
  exact h

theorem splice_length (g : ContextGrid) :
    g.splice_current.inner.length = g.inner.length := by
  cases hold : g.inner.get? g.current with
  | none => simp [ContextGrid.splice_current, hold, getq hold]
  | some old_item =>
    cases hfp : ContextGrid.findParent g.inner g.current with
    | none =>
      cases hr : old_item.right with
      | some rv =>
        cases hrv : g.inner.get? rv with
        | none => simp [ContextGrid.splice_current, hold, getq hold, hfp, hr, hrv, getq hrv]
        | some ri => simp [ContextGrid.splice_current, hold, getq hold, hfp, hr, hrv, getq hrv]
      | none =>
        cases hd : old_item.down with
        | some dv =>
          cases hdv : g.inner.get? dv with
          | none => simp [ContextGrid.splice_current, hold, getq hold, hfp, hr, hd, hdv, getq hdv]
          | some di => simp [ContextGrid.splice_current, hold, getq hold, hfp, hr, hd, hdv, getq hdv]
        | none =>
          rw [splice_eq_leaf g old_item hold hfp hr hd]
          unfold ContextGrid.select_prev_split
          split
          · rfl
          · split <;> rfl
    | some pa =>
      obtain ⟨a, p⟩ := pa
      cases hp : g.inner.get? p with
      | none => cases a <;> simp [ContextGrid.splice_current, hold, getq hold, hfp, hp, getq hp]
      | some parent_item =>
        cases a <;>
          (simp only [ContextGrid.splice_current, hold, getq hold, hfp, hp, getq hp]
           repeat' split
           all_goals simp)

theorem pointerTo_eq {g : ContextGrid} {j : ℕ} {it : ContextGridItem}
    (h : g.inner.get? j = some it) (a : Bool) :
    pointerTo g j a = if a then it.right else it.down := by
  unfold pointerTo
  rw [h]
  rfl

theorem get_of_lt {α : Type _} (l : List α) {n : ℕ} (h : n < l.length) :
    ∃ x, l.get? n = some x :=
  ⟨l.get ⟨n, h⟩, List.get?_eq_get h⟩

theorem splice_pointerTo_no_parent {g : ContextGrid} {old_item : ContextGridItem}
    (hold : g.inner.get? g.current = some old_item)
    (hfp : ContextGrid.findParent g.inner g.current = none) :
    ∀ j a, pointerTo g.splice_current j a = pointerTo g j a := by
  intro j a
  cases hr : old_item.right with
  | some rv =>
    cases hrv : g.inner.get? rv with
    | none =>
      simp only [ContextGrid.splice_current, hold, getq hold, hfp, hr, hrv, getq hrv]
    | some right_item =>
      rw [splice_eq_noparent_right g old_item right_item rv hold hfp hr hrv]
      rw [pointerTo_set g _ rv _ rfl (List.get?_eq_some.1 hrv).choose]
      by_cases hjr : j = rv
      · subst hjr
        rw [if_pos rfl, pointerTo_eq hrv]
      · rw [if_neg hjr]
  | none =>
    cases hd : old_item.down with
    | some dv =>
      cases hdv : g.inner.get? dv with
      | none =>
        simp only [ContextGrid.splice_current, hold, getq hold, hfp, hr, hd, hdv, getq hdv]
      | some down_item =>
        rw [splice_eq_noparent_down g old_item down_item dv hold hfp hr hd hdv]
        rw [pointerTo_set g _ dv _ rfl (List.get?_eq_some.1 hdv).choose]
        by_cases hjd : j = dv
        · subst hjd
          rw [if_pos rfl, pointerTo_eq hdv]
        · rw [if_neg hjd]
    | none =>
      rw [splice_eq_leaf g old_item hold hfp hr hd, pointerTo_select_prev]

theorem splice_pointerTo_parent_right {g : ContextGrid} (hwf : wellFormed g)
    {old_item parent_item : ContextGridItem} {p : ℕ}
    (hold : g.inner.get? g.current = some old_item)
    (hp : g.inner.get? p = some parent_item)
    (hfp : ContextGrid.findParent g.inner g.current = some (true, p)) :
    ∀ j b, pointerTo g.splice_current j b =
      if j = p then (if b then old_item.right else parent_item.down)
      else pointerTo g j b := by
  have hpptr := findParent_some hfp
  have hok := wf_ptrOk hwf hpptr
  have hne : p ≠ g.current := fun h => hok.2.2 h.symm
  intro j b
  rw [splice_eq_right g old_item parent_item p hold hp hfp hne]
  rw [pointerTo_set g _ p _ rfl (List.get?_eq_some.1 hp).choose]

theorem splice_pointerTo_parent_down {g : ContextGrid} (hwf : wellFormed g)
    {old_item parent_item : ContextGridItem} {p : ℕ}
    (hold : g.inner.get? g.current = some old_item)
    (hp : g.inner.get? p = some parent_item)
    (hfp : ContextGrid.findParent g.inner g.current = some (false, p)) :
    ∀ j b, pointerTo g.splice_current j b =
      if j = p then (if b then parent_item.right else old_item.down)
      else pointerTo g j b := by
  have hpptr := findParent_some hfp
  have hok := wf_ptrOk hwf hpptr
  have hne : p ≠ g.current := fun h => hok.2.2 h.symm
  intro j b
  rw [splice_eq_down g old_item parent_item p hold hp hfp hne]
  rw [pointerTo_set g _ p _ rfl (List.get?_eq_some.1 hp).choose]

/-- After the splice steps of `remove_current`, no pointer refers to the
slot about to be removed. -/
theorem splice_no_ptr_to_current (g : ContextGrid) (hwf : wellFormed g) :
    ∀ j a, pointerTo g.splice_current j a ≠ some g.current := by
  have hcur := hwf.1
  obtain ⟨old_item, hold⟩ := get_of_lt g.inner hcur
  cases hfp : ContextGrid.findParent g.inner g.current with
  | none =>
    intro j a h
    rw [splice_pointerTo_no_parent hold hfp] at h
    exact findParent_none hfp j a h
  | some pa =>
    obtain ⟨a0, p⟩ := pa
    have hpptr := findParent_some hfp
    obtain ⟨parent_item, hp⟩ := get_of_lt g.inner (pointerTo_lt hpptr)
    cases a0 with
    | true =>
      have key := splice_pointerTo_parent_right hwf hold hp hfp
      intro j b hcontra
      rw [key j b] at hcontra
      by_cases hjp : j = p
      · rw [if_pos hjp] at hcontra
        cases b
        · have hdown : pointerTo g p false = some g.current := by
            rw [pointerTo_eq hp]
            simpa using hcontra
          exact absurd (wf_unique hwf hdown hpptr).2 (by simp)
        · have hrr : pointerTo g g.current true = some g.current := by
            rw [pointerTo_eq hold]
            simpa using hcontra
          exact absurd rfl (wf_ptrOk hwf hrr).2.2
      · rw [if_neg hjp] at hcontra
        exact hjp (wf_unique hwf hcontra hpptr).1
    | false =>
      have key := splice_pointerTo_parent_down hwf hold hp hfp
      intro j b hcontra
      rw [key j b] at hcontra
      by_cases hjp : j = p
      · rw [if_pos hjp] at hcontra
        cases b
        · have hdd : pointerTo g g.current false = some g.current := by
            rw [pointerTo_eq hold]
            simpa using hcontra
          exact absurd rfl (wf_ptrOk hwf hdd).2.2
        · have hrt : pointerTo g p true = some g.current := by
            rw [pointerTo_eq hp]
            simpa using hcontra
          exact absurd (wf_unique hwf hrt hpptr).2 (by simp)
      · rw [if_neg hjp] at hcontra
        exact hjp (wf_unique hwf hcontra hpptr).1


/-- Claim C6, amended: on a well-formed grid, after the splice steps of
`remove_current` no remaining pointer refers to the removed index (so no
pointer refers to the removed pane); the subsequent compaction maps each
surviving slot j to j-1 when it lay beyond the removed index and leaves
it otherwise, decrementing every stored pointer strictly greater than the
removed index by exactly one and leaving smaller ones unchanged; every
slot other than the parent's spliced axis still holds its original
pointer at splice time, and the parent's spliced axis holds the removed
node's same-axis pointer. -/
theorem C6_remove_compaction (g : ContextGrid) (hwf : wellFormed g) :
    (∀ j a, pointerTo g.splice_current j a ≠ some g.current) ∧
    (g.remove_current = g.splice_current.remove_index g.current) ∧
    (∀ j a, j ≠ g.current → j < g.inner.length →
      pointerTo g.remove_current (if g.current < j then j - 1 else j) a =
        (pointerTo g.splice_current j a).map
          (fun t => if g.current < t then t - 1 else t)) ∧
    (∀ j a, ContextGrid.findParent g.inner g.current ≠ some (a, j) →
      pointerTo g.splice_current j a = pointerTo g j a) ∧
    (∀ a p, ContextGrid.findParent g.inner g.current = some (a, p) →
      pointerTo g.splice_current p a = pointerTo g g.current a) := by
  have hcur := hwf.1
  obtain ⟨old_item, hold⟩ := get_of_lt g.inner hcur
  have hpart3 : ∀ j a, j ≠ g.current → j < g.inner.length →
      pointerTo g.remove_current (if g.current < j then j - 1 else j) a =
        (pointerTo g.splice_current j a).map
          (fun t => if g.current < t then t - 1 else t) := by
    intro j a hj hlt
    show pointerTo (g.splice_current.remove_index g.current) _ a = _
    exact remove_index_pointerTo _ g.current j a hj (by rw [splice_length]; exact hlt)
  cases hfp : ContextGrid.findParent g.inner g.current with
  | none =>
    refine ⟨splice_no_ptr_to_current g hwf, rfl, hpart3, ?_, ?_⟩
    · intro j a _
      exact splice_pointerTo_no_parent hold hfp j a
    · intro a p h5
      cases h5
  | some pa =>
    obtain ⟨a0, p⟩ := pa
    have hpptr := findParent_some hfp
    obtain ⟨parent_item, hp⟩ := get_of_lt g.inner (pointerTo_lt hpptr)
    cases a0 with
    | true =>
      have key := splice_pointerTo_parent_right hwf hold hp hfp
      refine ⟨splice_no_ptr_to_current g hwf, rfl, hpart3, ?_, ?_⟩
      · intro j b hne2
        rw [key j b]
        by_cases hjp : j = p
        · cases b
          · rw [if_pos hjp, hjp]
            exact (pointerTo_eq hp false).symm
          · rw [hjp] at hne2
            exact absurd rfl hne2
        · rw [if_neg hjp]
      · intro a p' h5
        have h6 : true = a ∧ p = p' := by simpa using h5
        obtain ⟨ha, hpp⟩ := h6
        subst hpp
        rw [← ha, key p true, if_pos rfl]
        exact (pointerTo_eq hold true).symm
    | false =>
      have key := splice_pointerTo_parent_down hwf hold hp hfp
      refine ⟨splice_no_ptr_to_current g hwf, rfl, hpart3, ?_, ?_⟩
      · intro j b hne2
        rw [key j b]
        by_cases hjp : j = p
        · cases b
          · rw [hjp] at hne2
            exact absurd rfl hne2
          · rw [if_pos hjp, hjp]
            exact (pointerTo_eq hp true).symm
        · rw [if_neg hjp]
      · intro a p' h5
        have h6 : false = a ∧ p = p' := by simpa using h5
        obtain ⟨ha, hpp⟩ := h6
        subst hpp
        rw [← ha, key p false, if_pos rfl]
        exact (pointerTo_eq hold false).symm

instance wellFormed.instDecidable (g : ContextGrid) : Decidable (wellFormed g) := by
  unfold wellFormed
  refine @instDecidableAnd _ _ ?_ ?_
  · exact inferInstance
  refine @instDecidableAnd _ _ ?_ ?_
  · exact inferInstance
  refine @instDecidableAnd _ _ ?_ ?_
  · exact inferInstance
  refine @instDecidableAnd _ _ ?_ ?_
  · exact inferInstance
  · exact inferInstance

/-- A well-formed three-pane chain 0 -> 1 -> 2 with the middle pane
focused. -/
def gridC6 : ContextGrid :=
  { width := 600, height := 600, current := 1, margin := Delta.default,
    border_color := (0, 0, 0, 0),
    inner := [⟨⟨0, dim600⟩, some 1, none⟩, ⟨⟨1, dim600⟩, some 2, none⟩,
      ⟨⟨2, dim600⟩, none, none⟩] }

/-- Claim C6, as stated, is false: on the well-formed chain 0 -> 1 -> 2
(current = 1), `remove_current` splices node 0 onto node 2 and compacts,
after which node 0's right pointer equals 1, the very index that was
removed (it now denotes the node formerly at index 2). -/
theorem C6_counterexample :
    wellFormed gridC6 ∧ gridC6.current = 1 ∧
      pointerTo gridC6.remove_current 0 true = some 1 := by
  refine ⟨by decide, rfl, by decide⟩

/-- Witness for C6 on the concrete well-formed three-pane chain. -/
theorem C6_witness :
    wellFormed gridC6 ∧
      gridC6.remove_current = gridC6.splice_current.remove_index gridC6.current :=
  ⟨by decide, (C6_remove_compaction gridC6 (by decide)).2.1⟩

/-! ## Claim C9 -/

/-- One pointer hop between panes. -/
def stepTo (g : ContextGrid) (i j : ℕ) : Prop :=
  pointerTo g i true = some j ∨ pointerTo g i false = some j

/-- Pointer reachability, the relation `plot_objects` traverses from the
root. -/
def Reaches (g : ContextGrid) : ℕ → ℕ → Prop :=
  Relation.ReflTransGen (stepTo g)

/-- The index compaction performed by `remove_index` at index i. -/
def shiftIdx (i t : ℕ) : ℕ := if i < t then t - 1 else t

theorem pointerTo_none_of_ge {g : ContextGrid} {j : ℕ} (h : g.inner.length ≤ j)
    (a : Bool) : pointerTo g j a = none := by
  unfold pointerTo
  rw [List.get?_eq_none.2 h]
  rfl

theorem no_incoming_unreachable {g : ContextGrid} {x s : ℕ}
    (hno : ∀ j a, pointerTo g j a ≠ some x) (hs : x ≠ s) : ¬ Reaches g s x := by
  intro hreach
  rcases Relation.ReflTransGen.cases_tail hreach with h | ⟨c, -, hstep⟩
  · exact hs h
  · cases hstep with
    | inl h => exact hno c true h
    | inr h => exact hno c false h

/-- Every rich text object emitted by `plot_objects` belongs to a pane
that is pointer-reachable from the start index. -/
theorem plot_objects_richtext_mem (g : ContextGrid) :
    ∀ (fuel start : ℕ) (m : Delta) (idv : ℕ) (pos : ℚ × ℚ),
      Object.RichText idv pos ∈ g.plot_objects fuel start m →
      ∃ j item, g.inner.get? j = some item ∧ item.val.rich_text_id = idv ∧
        Reaches g start j := by
  intro fuel
  induction fuel with
  | zero => intro start m idv pos hmem; simp [ContextGrid.plot_objects] at hmem
  | succ n ih =>
    intro start m idv pos hmem
    cases hg : g.inner.get? start with
    | none =>
      simp only [ContextGrid.plot_objects, hg, getq hg] at hmem
      simp at hmem
    | some item =>
      simp only [ContextGrid.plot_objects, hg, getq hg] at hmem
      rcases List.mem_cons.1 hmem with hhead | htail
      · exact ⟨start, item, hg, by injection hhead with h1 h2; exact h1.symm,
          Relation.ReflTransGen.refl⟩
      · rcases List.mem_append.1 htail with hside | hside
        · cases hr : item.right with
          | none => rw [hr] at hside; simp at hside
          | some r =>
            rw [hr] at hside
            rcases List.mem_cons.1 hside with hrect | hrec
            · exact absurd hrect (by simp)
            · obtain ⟨j, itm, h1, h2, h3⟩ := ih r _ idv pos hrec
              refine ⟨j, itm, h1, h2, Relation.ReflTransGen.head ?_ h3⟩
              exact Or.inl (by rw [pointerTo_eq hg]; simpa using hr)
        · cases hd : item.down with
          | none => rw [hd] at hside; simp at hside
          | some d =>
            rw [hd] at hside
            rcases List.mem_cons.1 hside with hrect | hrec
            · exact absurd hrect (by simp)
            · obtain ⟨j, itm, h1, h2, h3⟩ := ih d _ idv pos hrec
              refine ⟨j, itm, h1, h2, Relation.ReflTransGen.head ?_ h3⟩
              exact Or.inr (by rw [pointerTo_eq hg]; simpa using hd)

/-- In the right-parent scenario with a cross-axis down child d, the
spliced state holds no pointer to d outside the removed slot itself: the
child is orphaned. -/
theorem splice_no_ptr_to_orphan (g : ContextGrid) (hwf : wellFormed g)
    {p d : ℕ} (hpar : pointerTo g p true = some g.current)
    (hdown : pointerTo g g.current false = some d) :
    ∀ j a, j ≠ g.current → pointerTo g.splice_current j a ≠ some d := by
  have hfp := findParent_of_pointer hwf hpar
  have hcur := hwf.1
  obtain ⟨old_item, hold⟩ := get_of_lt g.inner hcur
  obtain ⟨parent_item, hp⟩ := get_of_lt g.inner (pointerTo_lt hpar)
  have key := splice_pointerTo_parent_right hwf hold hp hfp
  intro j a hjc h
  rw [key j a] at h
  by_cases hjp : j = p
  · rw [if_pos hjp] at h
    cases a
    · have hpd : pointerTo g p false = some d := by
        rw [pointerTo_eq hp]
        simpa using h
      exact absurd (wf_unique hwf hpd hdown).1.symm (wf_ptrOk hwf hpar).2.2
    · have hcr : pointerTo g g.current true = some d := by
        rw [pointerTo_eq hold]
        simpa using h
      exact absurd (wf_unique hwf hcr hdown).2 (by simp)
  · rw [if_neg hjp] at h
    exact hjc (wf_unique hwf h hdown).1

theorem splice_parent_right_ids (g : ContextGrid) (hwf : wellFormed g)
    {p : ℕ} (hpar : pointerTo g p true = some g.current) :
    ∀ j it, g.splice_current.inner.get? j = some it →
      ∃ it0, g.inner.get? j = some it0 ∧
        it.val.rich_text_id = it0.val.rich_text_id := by
  have hfp := findParent_of_pointer hwf hpar
  have hcur := hwf.1
  obtain ⟨old_item, hold⟩ := get_of_lt g.inner hcur
  obtain ⟨parent_item, hp⟩ := get_of_lt g.inner (pointerTo_lt hpar)
  have hne : p ≠ g.current := fun h => (wf_ptrOk hwf hpar).2.2 h.symm
  rw [splice_eq_right g old_item parent_item p hold hp hfp hne]
  intro j it hj
  by_cases hjp : j = p
  · subst hjp
    rw [List.get?_set_eq_of_lt _ (List.get?_eq_some.1 hp).choose] at hj
    exact ⟨parent_item, hp, by rw [← Option.some.inj hj]⟩
  · rw [List.get?_set_ne _ _ (fun h => hjp h.symm)] at hj
    exact ⟨it, hj, rfl⟩

/-- Claim C9: when the removed pane is its parent's right child and also
has a down neighbor d, `remove_current` re-parents only the right child;
afterwards no remaining pane's pointer refers to d's compacted index, d
is unreachable from the root and its rich text is never emitted by
`plot_objects` at any fuel nor by `objects()`, although its node (with
its payload) remains in the array. -/
theorem C9_orphaned_cross_child (g : ContextGrid) (hwf : wellFormed g)
    (p d : ℕ) (ditem : ContextGridItem)
    (hpar : pointerTo g p true = some g.current)
    (hdown : pointerTo g g.current false = some d)
    (hdp : d ≠ p)
    (hd : g.inner.get? d = some ditem)
    (hids : ∀ j₁ < g.inner.length, ∀ j₂ < g.inner.length,
      (g.inner.get? j₁).map (fun it => it.val.rich_text_id) =
        (g.inner.get? j₂).map (fun it => it.val.rich_text_id) → j₁ = j₂) :
    (g.remove_current.inner.length = g.inner.length - 1) ∧
    (∀ j a, pointerTo g.remove_current j a ≠ some (shiftIdx g.current d)) ∧
    ((g.remove_current.inner.get? (shiftIdx g.current d)).map (fun it => it.val) =
      some ditem.val) ∧
    (¬ Reaches g.remove_current 0 (shiftIdx g.current d)) ∧
    (∀ fuel m pos, Object.RichText ditem.val.rich_text_id pos ∉
      g.remove_current.plot_objects fuel 0 m) ∧
    (∀ pos, Object.RichText ditem.val.rich_text_id pos ∉ g.remove_current.objects) := by
  have hcur := hwf.1
  have hdok := wf_ptrOk hwf hdown
  have hpok := wf_ptrOk hwf hpar
  have hdc : d ≠ g.current := hdok.2.2
  have hsplen : g.splice_current.inner.length = g.inner.length := splice_length g
  have hlen : g.remove_current.inner.length = g.inner.length - 1 := by
    show ((g.splice_current).remove_index g.current).inner.length = _
    rw [remove_index_length _ _ (by rw [hsplen]; exact hcur), hsplen]
  have hfp := findParent_of_pointer hwf hpar
  obtain ⟨old_item, hold⟩ := get_of_lt g.inner hcur
  obtain ⟨parent_item, hp⟩ := get_of_lt g.inner (pointerTo_lt hpar)
  have hnep : p ≠ g.current := fun h => hpok.2.2 h.symm
  have hnoptr : ∀ j a, pointerTo g.remove_current j a ≠ some (shiftIdx g.current d) := by
    intro j a h
    by_cases hjl : j < g.inner.length - 1
    · have hback : ∃ j0, j0 ≠ g.current ∧ j0 < g.inner.length ∧
          (if g.current < j0 then j0 - 1 else j0) = j := by
        by_cases hjc : j < g.current
        · exact ⟨j, by omega, by omega, by rw [if_neg (by omega)]⟩
        · exact ⟨j + 1, by omega, by omega, by rw [if_pos (by omega)]; omega⟩
      obtain ⟨j0, hj0ne, hj0lt, hj0map⟩ := hback
      have key := remove_index_pointerTo g.splice_current g.current j0 a hj0ne
        (by rw [hsplen]; exact hj0lt)
      rw [hj0map] at key
      rw [show pointerTo g.remove_current j a =
        pointerTo (g.splice_current.remove_index g.current) j a from rfl, key] at h
      obtain ⟨t, ht, hshift⟩ := Option.map_eq_some'.1 h
      have htc : t ≠ g.current := fun he =>
        splice_no_ptr_to_current g hwf j0 a (he ▸ ht)
      have htd : t = d := by
        unfold shiftIdx at hshift
        have h1 := hdok.2.2
        split_ifs at hshift <;> omega
      exact splice_no_ptr_to_orphan g hwf hpar hdown j0 a hj0ne (htd ▸ ht)
    · have hnone : pointerTo g.remove_current j a = none :=
        pointerTo_none_of_ge (by rw [hlen]; omega) a
      rw [hnone] at h
      cases h
  have hspd : g.splice_current.inner.get? d = some ditem := by
    rw [splice_eq_right g old_item parent_item p hold hp hfp hnep]
    rw [List.get?_set_ne _ _ (fun h => hdp h.symm)]
    exact hd
  have hsurv : g.remove_current.inner.get? (shiftIdx g.current d) =
      some (mapItem g.current ditem) := by
    have key := remove_index_get g.splice_current g.current d hdc
      (by rw [hsplen]; exact hdok.1)
    rw [hspd] at key
    exact key
  have hd0 : shiftIdx g.current d ≠ 0 := by
    have h1 := hdok.2.1
    have h2 := hpok.2.1
    unfold shiftIdx
    split_ifs <;> omega
  have hunreach : ¬ Reaches g.remove_current 0 (shiftIdx g.current d) :=
    no_incoming_unreachable hnoptr hd0
  have hemit : ∀ fuel m pos, Object.RichText ditem.val.rich_text_id pos ∉
      g.remove_current.plot_objects fuel 0 m := by
    intro fuel m pos hmem
    obtain ⟨j, itm, hj, hid, hreach⟩ :=
      plot_objects_richtext_mem _ fuel 0 m _ pos hmem
    have hjl : j < g.inner.length - 1 := by
      have := (List.get?_eq_some.1 hj).choose
      rw [hlen] at this
      exact this
    have hback : ∃ j0, j0 ≠ g.current ∧ j0 < g.inner.length ∧
        (if g.current < j0 then j0 - 1 else j0) = j := by
      by_cases hjc : j < g.current
      · exact ⟨j, by omega, by omega, by rw [if_neg (by omega)]⟩
      · exact ⟨j + 1, by omega, by omega, by rw [if_pos (by omega)]; omega⟩
    obtain ⟨j0, hj0ne, hj0lt, hj0map⟩ := hback
    have key := remove_index_get g.splice_current g.current j0 hj0ne
      (by rw [hsplen]; exact hj0lt)
    rw [hj0map] at key
    rw [show g.remove_current.inner.get? j =
      (g.splice_current.remove_index g.current).inner.get? j from rfl, key] at hj
    obtain ⟨it', hsp, hmapped⟩ := Option.map_eq_some'.1 hj
    obtain ⟨it0, hg0, hid0⟩ := splice_parent_right_ids g hwf hpar j0 it' hsp
    have hidchain : it0.val.rich_text_id = ditem.val.rich_text_id := by
      rw [← hid0]
      have : itm.val = it'.val := by rw [← hmapped]; rfl
      rw [← show itm.val.rich_text_id = it'.val.rich_text_id from by rw [this]]
      exact hid
    have hj0d : j0 = d := hids j0 hj0lt d hdok.1 (by rw [hg0, hd]; simpa using hidchain)
    subst hj0d
    rw [show (if g.current < j0 then j0 - 1 else j0) = shiftIdx g.current j0 from rfl]
      at hj0map
    rw [← hj0map] at hreach
    exact hunreach hreach
  refine ⟨hlen, hnoptr, by rw [hsurv]; rfl, hunreach, hemit, ?_⟩
  intro pos hmem
  have hlen3 : 3 ≤ g.inner.length := by
    have hplt : p < g.inner.length := pointerTo_lt hpar
    have h1 := hpok.2.2
    have h2 := hdok.2.2
    have h3 := hdok.1
    omega
  rw [show g.remove_current.objects =
      (if g.remove_current.inner.length = 0 then []
       else if g.remove_current.inner.length = 1 then
         match g.remove_current.inner.head? with
         | some item => [Object.RichText item.val.rich_text_id
             (g.remove_current.margin.x, g.remove_current.margin.top_y)]
         | none => []
       else g.remove_current.plot_objects g.remove_current.inner.length 0
         g.remove_current.margin) from rfl] at hmem
  rw [if_neg (by omega), if_neg (by omega)] at hmem
  exact hemit _ _ _ hmem

/-- A well-formed grid where pane 0's right child is the focused pane 1,
which has a down child 2. -/
def gridC9 : ContextGrid :=
  { width := 600, height := 600, current := 1, margin := Delta.default,
    border_color := (0, 0, 0, 0),
    inner := [⟨⟨10, dim600⟩, some 1, none⟩, ⟨⟨11, dim600⟩, none, some 2⟩,
      ⟨⟨12, dim600⟩, none, none⟩] }

/-- Witness for C9 on a concrete grid with pane 0 pointing right to the
focused pane 1, which has a down child 2. -/
theorem C9_witness :
    wellFormed gridC9 ∧
      pointerTo gridC9 0 true = some gridC9.current ∧
      pointerTo gridC9 gridC9.current false = some 2 ∧
      (2 : ℕ) ≠ 0 ∧
      gridC9.inner.get? 2 = some ⟨⟨12, dim600⟩, none, none⟩ ∧
      (∀ j₁ < gridC9.inner.length, ∀ j₂ < gridC9.inner.length,
        (gridC9.inner.get? j₁).map (fun it => it.val.rich_text_id) =
          (gridC9.inner.get? j₂).map (fun it => it.val.rich_text_id) → j₁ = j₂) ∧
      gridC9.remove_current.inner.length = gridC9.inner.length - 1 :=
  ⟨by decide, by decide, by decide, by decide, rfl, by decide,
    (C9_orphaned_cross_child gridC9 (by decide) 0 2 ⟨⟨12, dim600⟩, none, none⟩
      (by decide) (by decide) (by decide) rfl (by decide)).1⟩

/-! ## Claim C3 -/

/-- The operations claim C3 interleaves. -/
inductive Op where
  | srt (c : Context)
  | sdn (c : Context)
  | rm
deriving DecidableEq

def applyOp (g : ContextGrid) : Op → ContextGrid
  | .srt c => g.split_right c
  | .sdn c => g.split_down c
  | .rm => g.remove_current

/-- Apply a sequence of operations left to right. -/
def applySeq (g : ContextGrid) : List Op → ContextGrid
  | [] => g
  | op :: rest => applySeq (applyOp g op) rest

def splitCount : List Op → ℕ
  | [] => 0
  | .srt _ :: rest => splitCount rest + 1
  | .sdn _ :: rest => splitCount rest + 1
  | .rm :: rest => splitCount rest

def rmCount : List Op → ℕ
  | [] => 0
  | .rm :: rest => rmCount rest + 1
  | _ :: rest => rmCount rest

/-- The sequence never removes from a single-pane engine when run on an
engine currently holding n panes (the restriction the counterexample
forces). -/
def validFrom : ℕ → List Op → Prop
  | _, [] => True
  | n, .srt _ :: rest => validFrom (n + 1) rest
  | n, .sdn _ :: rest => validFrom (n + 1) rest
  | n, .rm :: rest => 2 ≤ n ∧ validFrom (n - 1) rest

instance validFrom.instDecidable : (n : ℕ) → (l : List Op) → Decidable (validFrom n l)
  | _, [] => isTrue trivial
  | n, .srt _ :: rest => validFrom.instDecidable (n + 1) rest
  | n, .sdn _ :: rest => validFrom.instDecidable (n + 1) rest
  | n, .rm :: rest => @instDecidableAnd _ _ inferInstance (validFrom.instDecidable (n - 1) rest)

/-- The inductive invariant of split/remove-only runs: the panes form one
chain 0 -> 1 -> ... -> len-1 (each link on the right or the down axis)
and the focused pane is the chain's tail. -/
def chainInv (g : ContextGrid) : Prop :=
  g.current + 1 = g.inner.length ∧
  (∀ j, j + 1 < g.inner.length →
    (pointerTo g j true = some (j + 1) ∧ pointerTo g j false = none) ∨
    (pointerTo g j true = none ∧ pointerTo g j false = some (j + 1))) ∧
  pointerTo g (g.inner.length - 1) true = none ∧
  pointerTo g (g.inner.length - 1) false = none

theorem chain_ptr {g : ContextGrid} (h : chainInv g) {i t : ℕ} {a : Bool}
    (hp : pointerTo g i a = some t) : t = i + 1 ∧ i + 1 < g.inner.length := by
  obtain ⟨hc, hmid, hlr, hlf⟩ := h
  have hi : i < g.inner.length := pointerTo_lt hp
  by_cases hi1 : i + 1 < g.inner.length
  · rcases hmid i hi1 with ⟨h1, h2⟩ | ⟨h1, h2⟩ <;> cases a
    · rw [h2] at hp; cases hp
    · rw [h1] at hp; exact ⟨(Option.some.inj hp).symm, hi1⟩
    · rw [h2] at hp; exact ⟨(Option.some.inj hp).symm, hi1⟩
    · rw [h1] at hp; cases hp
  · have hieq : i = g.inner.length - 1 := by omega
    rw [hieq] at hp
    cases a
    · rw [hlf] at hp; cases hp
    · rw [hlr] at hp; cases hp

/-- A chain satisfies the general pointer well-formedness. -/
theorem chainInv_wf (g : ContextGrid) (h : chainInv g) : wellFormed g := by
  have hc := h.1
  refine ⟨by omega, ?_, ?_, ?_, ?_⟩
  · intro i hi
    obtain ⟨-, hmid, hlr, hlf⟩ := h
    by_cases hi1 : i + 1 < g.inner.length
    · rcases hmid i hi1 with ⟨h1, h2⟩ | ⟨h1, h2⟩ <;> rw [h1, h2]
      · exact ⟨⟨hi1, by omega, by omega⟩, trivial⟩
      · exact ⟨trivial, ⟨hi1, by omega, by omega⟩⟩
    · have hieq : i = g.inner.length - 1 := by omega
      rw [hieq, hlr, hlf]
      exact ⟨trivial, trivial⟩
  · intro i₁ _ i₂ _ heq
    cases hp1 : pointerTo g i₁ true with
    | none => exact Or.inl rfl
    | some t =>
      rw [hp1] at heq
      have e1 := (chain_ptr h hp1).1
      have e2 := (chain_ptr h heq.symm).1
      exact Or.inr (by omega)
  · intro i₁ _ i₂ _ heq
    cases hp1 : pointerTo g i₁ false with
    | none => exact Or.inl rfl
    | some t =>
      rw [hp1] at heq
      have e1 := (chain_ptr h hp1).1
      have e2 := (chain_ptr h heq.symm).1
      exact Or.inr (by omega)
  · intro i₁ _ i₂ _ heq
    cases hp1 : pointerTo g i₁ true with
    | none => exact rfl
    | some t =>
      rw [hp1] at heq
      have e1 := chain_ptr h hp1
      have e2 := chain_ptr h heq.symm
      have hii : i₁ = i₂ := by omega
      obtain ⟨-, hmid, -, -⟩ := h
      rcases hmid i₁ e1.2 with ⟨ha1, ha2⟩ | ⟨ha1, ha2⟩
      · rw [hii, ← heq] at ha2
        cases ha2
      · rw [ha1] at hp1
        cases hp1

theorem chainInv_new (c : Context) (m : Delta) (col : ℚ × ℚ × ℚ × ℚ) :
    chainInv (ContextGrid.new c m col) := by
  refine ⟨rfl, ?_, rfl, rfl⟩
  intro j hj
  have h1 : (ContextGrid.new c m col).inner.length = 1 := rfl
  omega

theorem pointerTo_inner (g2 g : ContextGrid) (l : List ContextGridItem)
    (h : g2.inner = l) (j : ℕ) (a : Bool) (hg : g.inner = l) :
    pointerTo g2 j a = pointerTo g j a := by
  unfold pointerTo
  rw [h, hg]

theorem pointerTo_eq_right {g : ContextGrid} {j : ℕ} {it : ContextGridItem}
    (h : g.inner.get? j = some it) : pointerTo g j true = it.right := by
  unfold pointerTo
  rw [h]
  rfl

theorem pointerTo_eq_down {g : ContextGrid} {j : ℕ} {it : ContextGridItem}
    (h : g.inner.get? j = some it) : pointerTo g j false = it.down := by
  unfold pointerTo
  rw [h]
  rfl

/-- `split_right` preserves the chain shape and grows it by one. -/
theorem chainInv_split_right (g : ContextGrid) (c : Context) (h : chainInv g) :
    chainInv (g.split_right c) ∧
      (g.split_right c).inner.length = g.inner.length + 1 := by
  obtain ⟨hc, hmid, hlr, hlf⟩ := h
  have hcur : g.current < g.inner.length := by omega
  obtain ⟨cur_item, hold⟩ := get_of_lt g.inner hcur
  have hce : g.current = g.inner.length - 1 := by omega
  have hcr : cur_item.right = none := by
    have h1 := pointerTo_eq_right hold
    rw [hce, hlr] at h1
    exact h1.symm
  have hcd : cur_item.down = none := by
    have h1 := pointerTo_eq_down hold
    rw [hce, hlf] at h1
    exact h1.symm
  have heq := split_right_eq g c cur_item hold
  have hlen : (g.split_right c).inner.length = g.inner.length + 1 := by
    rw [heq]
    simp
  have hcur2 : (g.split_right c).current = g.inner.length := by
    rw [heq]
  have hptrA : ∀ j a, j < g.inner.length → j ≠ g.current →
      pointerTo (g.split_right c) j a = pointerTo g j a := by
    intro j a hjl hjc
    unfold pointerTo
    rw [heq]
    show ((g.inner.set g.current _ ++ [_]).get? j).bind _ = _
    rw [List.get?_append (by simpa using hjl),
      List.get?_set_ne _ _ (fun hh => hjc hh.symm)]
  have hptrU : ∀ a, pointerTo (g.split_right c) g.current a =
      if a then some g.inner.length else cur_item.down := by
    intro a
    unfold pointerTo
    rw [heq]
    show ((g.inner.set g.current _ ++ [_]).get? g.current).bind _ = _
    rw [get_set_append_self _ _ _ _ hcur]
    cases a <;> rfl
  have hptrN : ∀ a, pointerTo (g.split_right c) g.inner.length a =
      if a then cur_item.right else none := by
    intro a
    unfold pointerTo
    rw [heq]
    show ((g.inner.set g.current _ ++ [_]).get? g.inner.length).bind _ = _
    rw [get_set_append_tail]
    cases a <;> rfl
  refine ⟨⟨by omega, ?_, ?_, ?_⟩, hlen⟩
  · intro j hj
    rw [hlen] at hj
    by_cases hjc : j = g.current
    · left
      constructor
      · rw [hjc, hptrU true, if_pos rfl, hce]
        congr 1
        omega
      · rw [hjc, hptrU false, if_neg (by simp)]
        exact hcd
    · have hj2 : j + 1 < g.inner.length := by omega
      rcases hmid j hj2 with ⟨h1, h2⟩ | ⟨h1, h2⟩
      · exact Or.inl ⟨by rw [hptrA j true (by omega) hjc]; exact h1,
          by rw [hptrA j false (by omega) hjc]; exact h2⟩
      · exact Or.inr ⟨by rw [hptrA j true (by omega) hjc]; exact h1,
          by rw [hptrA j false (by omega) hjc]; exact h2⟩
  · rw [hlen, Nat.add_sub_cancel, hptrN true, if_pos rfl]
    exact hcr
  · rw [hlen, Nat.add_sub_cancel, hptrN false, if_neg (by simp)]

/-- `split_down` preserves the chain shape and grows it by one. -/
theorem chainInv_split_down (g : ContextGrid) (c : Context) (h : chainInv g) :
    chainInv (g.split_down c) ∧
      (g.split_down c).inner.length = g.inner.length + 1 := by
  obtain ⟨hc, hmid, hlr, hlf⟩ := h
  have hcur : g.current < g.inner.length := by omega
  obtain ⟨cur_item, hold⟩ := get_of_lt g.inner hcur
  have hce : g.current = g.inner.length - 1 := by omega
  have hcr : cur_item.right = none := by
    have h1 := pointerTo_eq_right hold
    rw [hce, hlr] at h1
    exact h1.symm
  have hcd : cur_item.down = none := by
    have h1 := pointerTo_eq_down hold
    rw [hce, hlf] at h1
    exact h1.symm
  have heq := split_down_eq g c cur_item hold
  have hlen : (g.split_down c).inner.length = g.inner.length + 1 := by
    rw [heq]
    simp
  have hptrA : ∀ j a, j < g.inner.length → j ≠ g.current →
      pointerTo (g.split_down c) j a = pointerTo g j a := by
    intro j a hjl hjc
    unfold pointerTo
    rw [heq]
    show ((g.inner.set g.current _ ++ [_]).get? j).bind _ = _
    rw [List.get?_append (by simpa using hjl),
      List.get?_set_ne _ _ (fun hh => hjc hh.symm)]
  have hptrU : ∀ a, pointerTo (g.split_down c) g.current a =
      if a then cur_item.right else some g.inner.length := by
    intro a
    unfold pointerTo
    rw [heq]
    show ((g.inner.set g.current _ ++ [_]).get? g.current).bind _ = _
    rw [get_set_append_self _ _ _ _ hcur]
    cases a <;> rfl
  have hptrN : ∀ a, pointerTo (g.split_down c) g.inner.length a =
      if a then none else cur_item.down := by
    intro a
    unfold pointerTo
    rw [heq]
    show ((g.inner.set g.current _ ++ [_]).get? g.inner.length).bind _ = _
    rw [get_set_append_tail]
    cases a <;> rfl
  refine ⟨⟨by rw [hlen, show (g.split_down c).current = g.inner.length from by rw [heq]], ?_, ?_, ?_⟩, hlen⟩
  · intro j hj
    rw [hlen] at hj
    by_cases hjc : j = g.current
    · right
      constructor
      · rw [hjc, hptrU true, if_pos rfl]
        exact hcr
      · rw [hjc, hptrU false, if_neg (by simp), hce]
        congr 1
        omega
    · have hj2 : j + 1 < g.inner.length := by omega
      rcases hmid j hj2 with ⟨h1, h2⟩ | ⟨h1, h2⟩
      · exact Or.inl ⟨by rw [hptrA j true (by omega) hjc]; exact h1,
          by rw [hptrA j false (by omega) hjc]; exact h2⟩
      · exact Or.inr ⟨by rw [hptrA j true (by omega) hjc]; exact h1,
          by rw [hptrA j false (by omega) hjc]; exact h2⟩
  · rw [hlen, Nat.add_sub_cancel, hptrN true, if_pos rfl]
  · rw [hlen, Nat.add_sub_cancel, hptrN false, if_neg (by simp)]
    exact hcd

/-- On a chain of at least two panes, `remove_current` removes the tail
and restores the chain shape. -/
theorem chainInv_remove (g : ContextGrid) (h : chainInv g) (hl2 : 2 ≤ g.inner.length) :
    chainInv g.remove_current ∧
      g.remove_current.inner.length = g.inner.length - 1 := by
  have hwf := chainInv_wf g h
  obtain ⟨hc, hmid, hlr, hlf⟩ := h
  have hcur : g.current < g.inner.length := by omega
  have hce : g.current = g.inner.length - 1 := by omega
  obtain ⟨old_item, hold⟩ := get_of_lt g.inner hcur
  have hcrn : old_item.right = none := by
    have h1 := pointerTo_eq_right hold
    rw [hce, hlr] at h1
    exact h1.symm
  have hcdn : old_item.down = none := by
    have h1 := pointerTo_eq_down hold
    rw [hce, hlf] at h1
    exact h1.symm
  obtain ⟨parent_item, hp⟩ :=
    get_of_lt g.inner (show g.inner.length - 2 < g.inner.length by omega)
  have hpdisj := hmid (g.inner.length - 2) (by omega)
  have hidx : g.inner.length - 2 + 1 = g.current := by omega
  have hnep : g.inner.length - 2 ≠ g.current := by omega
  have hsplen := splice_length g
  have hril : g.current < g.splice_current.inner.length := by
    rw [hsplen]
    exact hcur
  have hlen : g.remove_current.inner.length = g.inner.length - 1 := by
    show ((g.splice_current).remove_index g.current).inner.length = _
    rw [remove_index_length _ _ hril, hsplen]
  have main : ∀ (P : ContextGridItem), P.right = none → P.down = none →
      g.splice_current =
        { g with
          inner := g.inner.set (g.inner.length - 2) P,
          current := g.inner.length - 2 } →
      chainInv g.remove_current := by
    intro P hPr hPd hsp
    have hsptr : ∀ j a, pointerTo g.splice_current j a =
        if j = g.inner.length - 2 then none else pointerTo g j a := by
      intro j a
      rw [pointerTo_set g _ (g.inner.length - 2) P (by rw [hsp]) (by omega) j a]
      by_cases hj2 : j = g.inner.length - 2
      · rw [if_pos hj2, if_pos hj2]
        cases a
        · simp [hPd]
        · simp [hPr]
      · rw [if_neg hj2, if_neg hj2]
    have hcur2 : g.remove_current.current = g.inner.length - 2 := by
      show ((g.splice_current).remove_index g.current).current = _
      rw [show ((g.splice_current).remove_index g.current).current =
        (g.splice_current).current from rfl, hsp]
    refine ⟨?_, ?_, ?_, ?_⟩
    · rw [hcur2, hlen]
      omega
    · intro j hj
      rw [hlen] at hj
      have hjne : j ≠ g.current := by omega
      have hjl : j < g.inner.length := by omega
      have keyT := remove_index_pointerTo g.splice_current g.current j true hjne
        (by rw [hsplen]; exact hjl)
      have keyF := remove_index_pointerTo g.splice_current g.current j false hjne
        (by rw [hsplen]; exact hjl)
      rw [if_neg (by omega)] at keyT keyF
      rw [hsptr j true, if_neg (by omega)] at keyT
      rw [hsptr j false, if_neg (by omega)] at keyF
      have hj2 : j + 1 < g.inner.length := by omega
      rcases hmid j hj2 with ⟨h1, h2⟩ | ⟨h1, h2⟩
      · left
        constructor
        · rw [show pointerTo g.remove_current j true =
            pointerTo ((g.splice_current).remove_index g.current) j true from rfl,
            keyT, h1]
          simp [show ¬ (g.current < j + 1) from by omega]
        · rw [show pointerTo g.remove_current j false =
            pointerTo ((g.splice_current).remove_index g.current) j false from rfl,
            keyF, h2]
          rfl
      · right
        constructor
        · rw [show pointerTo g.remove_current j true =
            pointerTo ((g.splice_current).remove_index g.current) j true from rfl,
            keyT, h1]
          rfl
        · rw [show pointerTo g.remove_current j false =
            pointerTo ((g.splice_current).remove_index g.current) j false from rfl,
            keyF, h2]
          simp [show ¬ (g.current < j + 1) from by omega]
    · have keyT := remove_index_pointerTo g.splice_current g.current
        (g.inner.length - 2) true hnep (by rw [hsplen]; omega)
      rw [if_neg (by omega)] at keyT
      rw [hsptr _ true, if_pos rfl] at keyT
      rw [hlen, show g.inner.length - 1 - 1 = g.inner.length - 2 from by omega]
      rw [show pointerTo g.remove_current (g.inner.length - 2) true =
        pointerTo ((g.splice_current).remove_index g.current)
          (g.inner.length - 2) true from rfl, keyT]
      rfl
    · have keyF := remove_index_pointerTo g.splice_current g.current
        (g.inner.length - 2) false hnep (by rw [hsplen]; omega)
      rw [if_neg (by omega)] at keyF
      rw [hsptr _ false, if_pos rfl] at keyF
      rw [hlen, show g.inner.length - 1 - 1 = g.inner.length - 2 from by omega]
      rw [show pointerTo g.remove_current (g.inner.length - 2) false =
        pointerTo ((g.splice_current).remove_index g.current)
          (g.inner.length - 2) false from rfl, keyF]
      rfl
  rcases hpdisj with ⟨h1, h2⟩ | ⟨h1, h2⟩
  · have hparptr : pointerTo g (g.inner.length - 2) true = some g.current := by
      rw [h1, hidx]
    have hfp := findParent_of_pointer hwf hparptr
    have hpdn : parent_item.down = none := by
      have h3 := pointerTo_eq_down hp
      rw [h2] at h3
      exact h3.symm
    have heq := splice_eq_right g old_item parent_item (g.inner.length - 2)
      hold hp hfp hnep
    exact ⟨main
      { parent_item with
        val := { parent_item.val with dimension := parent_item.val.dimension.update_width (parent_item.val.dimension.width + old_item.val.dimension.width + PADDING) },
        right := old_item.right } hcrn hpdn heq, hlen⟩
  · have hparptr : pointerTo g (g.inner.length - 2) false = some g.current := by
      rw [h2, hidx]
    have hfp := findParent_of_pointer hwf hparptr
    have hprn : parent_item.right = none := by
      have h3 := pointerTo_eq_right hp
      rw [h1] at h3
      exact h3.symm
    have heq := splice_eq_down g old_item parent_item (g.inner.length - 2)
      hold hp hfp hnep
    exact ⟨main
      { parent_item with
        val := { parent_item.val with dimension := parent_item.val.dimension.update_height (parent_item.val.dimension.height + old_item.val.dimension.height) },
        down := old_item.down } hprn hcdn heq, hlen⟩

theorem validFrom_take : ∀ (ops : List Op) (n k : ℕ),
    validFrom n ops → validFrom n (ops.take k) := by
  intro ops
  induction ops with
  | nil =>
    intro n k h
    rw [List.take_nil]
    exact trivial
  | cons op rest ih =>
    intro n k h
    cases k with
    | zero => exact trivial
    | succ k2 =>
      rw [List.take_succ_cons]
      cases op with
      | srt c => exact ih (n + 1) k2 h
      | sdn c => exact ih (n + 1) k2 h
      | rm => exact ⟨h.1, ih (n - 1) k2 h.2⟩

theorem chain_steps : ∀ (ops : List Op) (g : ContextGrid), chainInv g →
    validFrom g.inner.length ops →
    chainInv (applySeq g ops) ∧
      (applySeq g ops).inner.length + rmCount ops =
        g.inner.length + splitCount ops := by
  intro ops
  induction ops with
  | nil =>
    intro g hg _
    exact ⟨hg, by simp [applySeq, rmCount, splitCount]⟩
  | cons op rest ih =>
    intro g hg hv
    cases op with
    | srt c =>
      have hs := chainInv_split_right g c hg
      have hv2 : validFrom (g.split_right c).inner.length rest := by
        rw [hs.2]
        exact hv
      obtain ⟨hci, hlen⟩ := ih (g.split_right c) hs.1 hv2
      refine ⟨hci, ?_⟩
      rw [show applySeq g (Op.srt c :: rest) = applySeq (g.split_right c) rest from rfl]
      rw [show rmCount (Op.srt c :: rest) = rmCount rest from rfl]
      rw [show splitCount (Op.srt c :: rest) = splitCount rest + 1 from rfl]
      omega
    | sdn c =>
      have hs := chainInv_split_down g c hg
      have hv2 : validFrom (g.split_down c).inner.length rest := by
        rw [hs.2]
        exact hv
      obtain ⟨hci, hlen⟩ := ih (g.split_down c) hs.1 hv2
      refine ⟨hci, ?_⟩
      rw [show applySeq g (Op.sdn c :: rest) = applySeq (g.split_down c) rest from rfl]
      rw [show rmCount (Op.sdn c :: rest) = rmCount rest from rfl]
      rw [show splitCount (Op.sdn c :: rest) = splitCount rest + 1 from rfl]
      omega
    | rm =>
      obtain ⟨hl2, hv2⟩ := hv
      have hr := chainInv_remove g hg hl2
      obtain ⟨hci, hlen⟩ := ih g.remove_current hr.1 (by rw [hr.2]; exact hv2)
      refine ⟨hci, ?_⟩
      rw [show applySeq g (Op.rm :: rest) = applySeq g.remove_current rest from rfl]
      rw [show rmCount (Op.rm :: rest) = rmCount rest + 1 from rfl]
      rw [show splitCount (Op.rm :: rest) = splitCount rest from rfl]
      omega

/-- Claim C3, amended: starting from a freshly constructed engine, after
any interleaved sequence of splits and removals in which no removal acts
on a single-pane engine, the pane count equals 1 + splits - removals, and
at every intermediate and final state `current` is in range. -/
theorem C3_amended_sequences (ops : List Op) (c0 : Context) (m : Delta)
    (col : ℚ × ℚ × ℚ × ℚ) (hvalid : validFrom 1 ops) :
    ((applySeq (ContextGrid.new c0 m col) ops).inner.length =
      1 + splitCount ops - rmCount ops) ∧
    ((applySeq (ContextGrid.new c0 m col) ops).inner.length + rmCount ops =
      1 + splitCount ops) ∧
    (∀ k, (applySeq (ContextGrid.new c0 m col) (ops.take k)).current <
      (applySeq (ContextGrid.new c0 m col) (ops.take k)).inner.length) := by
  have hnew := chainInv_new c0 m col
  have hlen1 : (ContextGrid.new c0 m col).inner.length = 1 := rfl
  have main := chain_steps ops _ hnew (by rw [hlen1]; exact hvalid)
  rw [hlen1] at main
  refine ⟨by omega, main.2, ?_⟩
  intro k
  have hvk : validFrom 1 (ops.take k) := validFrom_take ops 1 k hvalid
  have hk := chain_steps (ops.take k) _ hnew (by rw [hlen1]; exact hvk)
  have hc := hk.1.1
  omega

/-- Claim C3, as stated, is false: the interleaving that removes first
and splits second has one split and one removal in total, yet after the
removal the engine is empty with `current = 0`, violating
`current < length` at an intermediate state. -/
theorem C3_counterexample :
    rmCount [Op.rm, Op.srt ⟨1, dim600⟩] ≤ splitCount [Op.rm, Op.srt ⟨1, dim600⟩] ∧
      ¬ ((applySeq gridC4 (List.take 1 [Op.rm, Op.srt ⟨1, dim600⟩])).current <
        (applySeq gridC4 (List.take 1 [Op.rm, Op.srt ⟨1, dim600⟩])).inner.length) := by
  constructor
  · decide
  · decide

/-- Witness for C3 on the concrete run split right, split down, remove. -/
theorem C3_witness :
    validFrom 1 [Op.srt ⟨1, dim600⟩, Op.sdn ⟨2, dim600⟩, Op.rm] ∧
      (applySeq (ContextGrid.new ⟨0, dim600⟩ Delta.default (0, 0, 0, 0))
          [Op.srt ⟨1, dim600⟩, Op.sdn ⟨2, dim600⟩, Op.rm]).inner.length =
        1 + splitCount [Op.srt ⟨1, dim600⟩, Op.sdn ⟨2, dim600⟩, Op.rm] -
          rmCount [Op.srt ⟨1, dim600⟩, Op.sdn ⟨2, dim600⟩, Op.rm] :=
  ⟨by decide,
    (C3_amended_sequences [Op.srt ⟨1, dim600⟩, Op.sdn ⟨2, dim600⟩, Op.rm]
      ⟨0, dim600⟩ Delta.default (0, 0, 0, 0) (by decide)).1⟩

end Rio
